import Mathlib

/-!
Verification of the loose-octree spatial index (Urho3D Octree) against its
natural-language specification.

The program under study is the octree implementation of Scene/Octree.cpp
(provided as src/unnamed/part_002).  Machine floats are modelled as exact
rationals: every claim under study is about comparisons, linear arithmetic
and control flow, none about rounding.  Code that lives in headers that are
not among the provided sources (BoundingBox.h, Octree.h inline members,
Ray.cpp, Drawable.h) is modelled from the specification and marked as such
in its doc comment.
-/

namespace Urho3D

/-- Three-component vector over exact rationals, modelling Urho3D Vector3
(float fields x_, y_, z_). -/
structure Vector3 where
  x_ : ℚ
  y_ : ℚ
  z_ : ℚ
  deriving DecidableEq

/-- Componentwise vector addition. -/
def Vector3.add (a b : Vector3) : Vector3 :=
  { x_ := a.x_ + b.x_, y_ := a.y_ + b.y_, z_ := a.z_ + b.z_ }

/-- Componentwise vector subtraction. -/
def Vector3.sub (a b : Vector3) : Vector3 :=
  { x_ := a.x_ - b.x_, y_ := a.y_ - b.y_, z_ := a.z_ - b.z_ }

/-- Scalar multiplication of a vector. -/
def Vector3.smul (c : ℚ) (v : Vector3) : Vector3 :=
  { x_ := c * v.x_, y_ := c * v.y_, z_ := c * v.z_ }

/-- Axis-aligned bounding box: min and max corner, modelling Urho3D
BoundingBox (fields min_, max_). -/
structure BoundingBox where
  min_ : Vector3
  max_ : Vector3
  deriving DecidableEq

/-- Modelled from the spec: BoundingBox.h is not among the provided sources.
Center of the box, (max_ + min_) * 0.5 componentwise. -/
def BoundingBox.Center (b : BoundingBox) : Vector3 :=
  Vector3.smul (1/2) (Vector3.add b.max_ b.min_)

/-- Modelled from the spec: BoundingBox.h is not among the provided sources.
Size of the box, max_ - min_ componentwise. -/
def BoundingBox.Size (b : BoundingBox) : Vector3 :=
  Vector3.sub b.max_ b.min_

/-- Outcome of the volume-inclusion test (spec section 2: INSIDE / INTERSECT /
OUTSIDE against a box). -/
inductive Intersection where
  | OUTSIDE : Intersection
  | INTERSECTS : Intersection
  | INSIDE : Intersection
  deriving DecidableEq

/-- Modelled from the spec: BoundingBox.h is not among the provided sources.
Three-way volume-inclusion test of a box against this box; the result is
INSIDE exactly when the argument box is fully contained (componentwise
min_ <= box.min_ and box.max_ <= max_), OUTSIDE when the two boxes are
disjoint on some axis, INTERSECTS otherwise. -/
def BoundingBox.IsInside (self box : BoundingBox) : Intersection :=
  if box.max_.x_ < self.min_.x_ ∨ self.max_.x_ < box.min_.x_ ∨
     box.max_.y_ < self.min_.y_ ∨ self.max_.y_ < box.min_.y_ ∨
     box.max_.z_ < self.min_.z_ ∨ self.max_.z_ < box.min_.z_ then
    Intersection.OUTSIDE
  else if box.min_.x_ < self.min_.x_ ∨ self.max_.x_ < box.max_.x_ ∨
          box.min_.y_ < self.min_.y_ ∨ self.max_.y_ < box.max_.y_ ∨
          box.min_.z_ < self.min_.z_ ∨ self.max_.z_ < box.max_.z_ then
    Intersection.INTERSECTS
  else
    Intersection.INSIDE

/-- Modelled from the spec: BoundingBox.h is not among the provided sources.
Containment of a single point in the box, componentwise min_ <= v <= max_. -/
def BoundingBox.containsPoint (b : BoundingBox) (v : Vector3) : Prop :=
  b.min_.x_ ≤ v.x_ ∧ v.x_ ≤ b.max_.x_ ∧
  b.min_.y_ ≤ v.y_ ∧ v.y_ ≤ b.max_.y_ ∧
  b.min_.z_ ≤ v.z_ ∧ v.z_ ≤ b.max_.z_

instance (b : BoundingBox) (v : Vector3) : Decidable (b.containsPoint v) := by
  unfold BoundingBox.containsPoint
  infer_instance

/-- Geometry fields of an Octant that Octant::Initialize computes: the tight
world box, its center, its half size, and the expanded culling box. -/
structure OctantGeom where
  worldBoundingBox_ : BoundingBox
  center_ : Vector3
  halfSize_ : Vector3
  cullingBox_ : BoundingBox
  deriving DecidableEq

/-- Octant::Initialize (source lines 241-247): store the world box, its
center and half size, and set the culling box to the world box expanded by
halfSize_ on each side. -/
def Octant.Initialize (box : BoundingBox) : OctantGeom :=
  let halfSize := Vector3.smul (1/2) box.Size
  { worldBoundingBox_ := box
    center_ := box.Center
    halfSize_ := halfSize
    cullingBox_ :=
      { min_ := Vector3.sub box.min_ halfSize
        max_ := Vector3.add box.max_ halfSize } }

/-- Octant::CheckDrawableFit (source lines 188-210).  numLevels is
root_->GetNumLevels(); level is the octant's stored level_. -/
def Octant.CheckDrawableFit (numLevels level : ℕ) (g : OctantGeom)
    (box : BoundingBox) : Bool :=
  if numLevels ≤ level ∨ g.halfSize_.x_ ≤ box.Size.x_ ∨
     g.halfSize_.y_ ≤ box.Size.y_ ∨ g.halfSize_.z_ ≤ box.Size.z_ then
    true
  else if box.min_.x_ ≤ g.worldBoundingBox_.min_.x_ - (1/2) * g.halfSize_.x_ ∨
          g.worldBoundingBox_.max_.x_ + (1/2) * g.halfSize_.x_ ≤ box.max_.x_ ∨
          box.min_.y_ ≤ g.worldBoundingBox_.min_.y_ - (1/2) * g.halfSize_.y_ ∨
          g.worldBoundingBox_.max_.y_ + (1/2) * g.halfSize_.y_ ≤ box.max_.y_ ∨
          box.min_.z_ ≤ g.worldBoundingBox_.min_.z_ - (1/2) * g.halfSize_.z_ ∨
          g.worldBoundingBox_.max_.z_ + (1/2) * g.halfSize_.z_ ≤ box.max_.z_ then
    true
  else
    false

/-- Child index computation of Octant::InsertDrawable (source lines 179-182):
per axis the bit is 0 when the box center coordinate is strictly below the
octant center, else 1, 2, 4 respectively. -/
def Octant.childIndexFor (g : OctantGeom) (box : BoundingBox) : ℕ :=
  let boxCenter := box.Center
  (if boxCenter.x_ < g.center_.x_ then 0 else 1) +
  (if boxCenter.y_ < g.center_.y_ then 0 else 2) +
  (if boxCenter.z_ < g.center_.z_ then 0 else 4)

/-- Child bounding box construction of Octant::GetOrCreateChild (source lines
124-141): per axis, bit set in the index selects the upper half. -/
def Octant.childBoundingBox (g : OctantGeom) (index : ℕ) : BoundingBox :=
  let oldCenter := g.worldBoundingBox_.Center
  { min_ :=
      { x_ := if index % 2 = 1 then oldCenter.x_ else g.worldBoundingBox_.min_.x_
        y_ := if index / 2 % 2 = 1 then oldCenter.y_ else g.worldBoundingBox_.min_.y_
        z_ := if index / 4 % 2 = 1 then oldCenter.z_ else g.worldBoundingBox_.min_.z_ }
    max_ :=
      { x_ := if index % 2 = 1 then g.worldBoundingBox_.max_.x_ else oldCenter.x_
        y_ := if index / 2 % 2 = 1 then g.worldBoundingBox_.max_.y_ else oldCenter.y_
        z_ := if index / 4 % 2 = 1 then g.worldBoundingBox_.max_.z_ else oldCenter.z_ } }

/-- C1 counterexample: for the octant world box with corners 0 and 4 on every
axis, Initialize sets cullingBox_.min_.x_ to -2, while the claimed value
(world min minus one quarter of the box size) is -1.  The claim as stated is
therefore false. -/
theorem C1_counterexample :
    ¬ ((Octant.Initialize
          { min_ := { x_ := 0, y_ := 0, z_ := 0 },
            max_ := { x_ := 4, y_ := 4, z_ := 4 } }).cullingBox_.min_.x_ =
        (0 : ℚ) - (1/4) *
          (BoundingBox.Size
            { min_ := { x_ := 0, y_ := 0, z_ := 0 },
              max_ := { x_ := 4, y_ := 4, z_ := 4 } }).x_) := by
  norm_num [Octant.Initialize, Vector3.smul, Vector3.sub, BoundingBox.Size]

/-- C1 (amended): after Initialize the octant's culling box equals its world
bounding box expanded outward by the octant's half-size - that is, by one
half of the box size, not one quarter - on each axis, componentwise. -/
theorem C1_initialize_cullingBox (box : BoundingBox) :
    (Octant.Initialize box).cullingBox_.min_.x_ =
        box.min_.x_ - (1/2) * (box.max_.x_ - box.min_.x_) ∧
    (Octant.Initialize box).cullingBox_.min_.y_ =
        box.min_.y_ - (1/2) * (box.max_.y_ - box.min_.y_) ∧
    (Octant.Initialize box).cullingBox_.min_.z_ =
        box.min_.z_ - (1/2) * (box.max_.z_ - box.min_.z_) ∧
    (Octant.Initialize box).cullingBox_.max_.x_ =
        box.max_.x_ + (1/2) * (box.max_.x_ - box.min_.x_) ∧
    (Octant.Initialize box).cullingBox_.max_.y_ =
        box.max_.y_ + (1/2) * (box.max_.y_ - box.min_.y_) ∧
    (Octant.Initialize box).cullingBox_.max_.z_ =
        box.max_.z_ + (1/2) * (box.max_.z_ - box.min_.z_) := by
  refine ⟨?_, ?_, ?_, ?_, ?_, ?_⟩ <;>
    simp [Octant.Initialize, Vector3.smul, Vector3.sub, Vector3.add,
      BoundingBox.Size]

/-- Helper: a two-level if-chain of Booleans is true exactly when one of the
two conditions holds. -/
theorem iteIte_true_iff (A B : Prop) [Decidable A] [Decidable B] :
    ((if A then true else if B then true else false) = true) ↔ (A ∨ B) := by
  split_ifs <;> simp_all

/-- C2: CheckDrawableFit returns true exactly when the octant's level is at or
beyond the configured maximum number of levels, or the box size reaches the
octant's half-size on at least one axis, or the box reaches past the margin
that guarantees containment inside a child octant's expanded culling volume
(box.min at or below worldBox.min - 0.5 * halfSize, or box.max at or above
worldBox.max + 0.5 * halfSize, on some axis); in every other case it returns
false. -/
theorem C2_checkDrawableFit_iff (numLevels level : ℕ) (g : OctantGeom)
    (box : BoundingBox) :
    Octant.CheckDrawableFit numLevels level g box = true ↔
      (numLevels ≤ level ∨
        (g.halfSize_.x_ ≤ (BoundingBox.Size box).x_ ∨
         g.halfSize_.y_ ≤ (BoundingBox.Size box).y_ ∨
         g.halfSize_.z_ ≤ (BoundingBox.Size box).z_) ∨
        (box.min_.x_ ≤ g.worldBoundingBox_.min_.x_ - (1/2) * g.halfSize_.x_ ∨
         g.worldBoundingBox_.max_.x_ + (1/2) * g.halfSize_.x_ ≤ box.max_.x_ ∨
         box.min_.y_ ≤ g.worldBoundingBox_.min_.y_ - (1/2) * g.halfSize_.y_ ∨
         g.worldBoundingBox_.max_.y_ + (1/2) * g.halfSize_.y_ ≤ box.max_.y_ ∨
         box.min_.z_ ≤ g.worldBoundingBox_.min_.z_ - (1/2) * g.halfSize_.z_ ∨
         g.worldBoundingBox_.max_.z_ + (1/2) * g.halfSize_.z_ ≤ box.max_.z_)) := by
  unfold Octant.CheckDrawableFit
  rw [iteIte_true_iff]
  tauto

/-- Helper: a false CheckDrawableFit means the box stays strictly inside the
child-containment margin on every axis. -/
theorem checkDrawableFit_false_margins (numLevels level : ℕ) (g : OctantGeom)
    (box : BoundingBox)
    (h : Octant.CheckDrawableFit numLevels level g box = false) :
    ¬ (box.min_.x_ ≤ g.worldBoundingBox_.min_.x_ - (1/2) * g.halfSize_.x_) ∧
    ¬ (g.worldBoundingBox_.max_.x_ + (1/2) * g.halfSize_.x_ ≤ box.max_.x_) ∧
    ¬ (box.min_.y_ ≤ g.worldBoundingBox_.min_.y_ - (1/2) * g.halfSize_.y_) ∧
    ¬ (g.worldBoundingBox_.max_.y_ + (1/2) * g.halfSize_.y_ ≤ box.max_.y_) ∧
    ¬ (box.min_.z_ ≤ g.worldBoundingBox_.min_.z_ - (1/2) * g.halfSize_.z_) ∧
    ¬ (g.worldBoundingBox_.max_.z_ + (1/2) * g.halfSize_.z_ ≤ box.max_.z_) := by
  unfold Octant.CheckDrawableFit at h
  split_ifs at h with h1 h2
  exact ⟨fun hh => h2 (Or.inl hh),
      fun hh => h2 (Or.inr (Or.inl hh)),
      fun hh => h2 (Or.inr (Or.inr (Or.inl hh))),
      fun hh => h2 (Or.inr (Or.inr (Or.inr (Or.inl hh)))),
      fun hh => h2 (Or.inr (Or.inr (Or.inr (Or.inr (Or.inl hh))))),
      fun hh => h2 (Or.inr (Or.inr (Or.inr (Or.inr (Or.inr hh)))))⟩

/-- C8 counterexample: on an octant with world box from 0 to 4 on every axis,
the box from (-19/20, 1, 1) to (1/20, 2, 2) fails CheckDrawableFit (so
insertion recurses), the chosen child index is 0, yet the chosen child's
world bounding box (0,0,0)-(2,2,2) does not contain the inserted box's
center (-9/20, 3/2, 3/2).  The claim as stated is therefore false: only the
child's culling box is guaranteed to contain the center. -/
theorem C8_counterexample :
    Octant.CheckDrawableFit 8 0
        (Octant.Initialize
          { min_ := { x_ := 0, y_ := 0, z_ := 0 },
            max_ := { x_ := 4, y_ := 4, z_ := 4 } })
        { min_ := { x_ := -19/20, y_ := 1, z_ := 1 },
          max_ := { x_ := 1/20, y_ := 2, z_ := 2 } } = false ∧
    Octant.childIndexFor
        (Octant.Initialize
          { min_ := { x_ := 0, y_ := 0, z_ := 0 },
            max_ := { x_ := 4, y_ := 4, z_ := 4 } })
        { min_ := { x_ := -19/20, y_ := 1, z_ := 1 },
          max_ := { x_ := 1/20, y_ := 2, z_ := 2 } } = 0 ∧
    ¬ (Octant.childBoundingBox
        (Octant.Initialize
          { min_ := { x_ := 0, y_ := 0, z_ := 0 },
            max_ := { x_ := 4, y_ := 4, z_ := 4 } }) 0).containsPoint
        (BoundingBox.Center
          { min_ := { x_ := -19/20, y_ := 1, z_ := 1 },
            max_ := { x_ := 1/20, y_ := 2, z_ := 2 } }) := by
  refine ⟨?_, ?_, ?_⟩ <;>
    norm_num [Octant.CheckDrawableFit, Octant.childIndexFor,
      Octant.childBoundingBox, Octant.Initialize, BoundingBox.containsPoint,
      BoundingBox.Center, BoundingBox.Size, Vector3.smul, Vector3.add,
      Vector3.sub]

set_option maxHeartbeats 2000000 in
/-- C8 (amended): when CheckDrawableFit returns false, the child index formed
by InsertDrawable has its three bits set exactly when the box center is not
below the octant center on the corresponding axis, and the chosen child - as
constructed by GetOrCreateChild and then initialized - has a CULLING box (not
world box, as originally claimed) that contains the inserted box's center. -/
theorem C8_insert_child_descent (numLevels level : ℕ) (b box : BoundingBox)
    (hb1 : box.min_.x_ ≤ box.max_.x_) (hb2 : box.min_.y_ ≤ box.max_.y_)
    (hb3 : box.min_.z_ ≤ box.max_.z_)
    (hfit : Octant.CheckDrawableFit numLevels level (Octant.Initialize b) box
        = false) :
    ((Octant.childIndexFor (Octant.Initialize b) box) % 2 = 1 ↔
        ¬ (box.Center.x_ < (Octant.Initialize b).center_.x_)) ∧
    ((Octant.childIndexFor (Octant.Initialize b) box) / 2 % 2 = 1 ↔
        ¬ (box.Center.y_ < (Octant.Initialize b).center_.y_)) ∧
    ((Octant.childIndexFor (Octant.Initialize b) box) / 4 % 2 = 1 ↔
        ¬ (box.Center.z_ < (Octant.Initialize b).center_.z_)) ∧
    (Octant.Initialize
        (Octant.childBoundingBox (Octant.Initialize b)
          (Octant.childIndexFor (Octant.Initialize b) box))).cullingBox_.containsPoint
      box.Center := by
  obtain ⟨m1, m2, m3, m4, m5, m6⟩ :=
    checkDrawableFit_false_margins numLevels level (Octant.Initialize b) box hfit
  simp only [Octant.Initialize, BoundingBox.Size, BoundingBox.Center,
    Vector3.smul, Vector3.add, Vector3.sub] at m1 m2 m3 m4 m5 m6
  by_cases hx : box.Center.x_ < (Octant.Initialize b).center_.x_ <;>
    by_cases hy : box.Center.y_ < (Octant.Initialize b).center_.y_ <;>
      by_cases hz : box.Center.z_ < (Octant.Initialize b).center_.z_
  all_goals
    first
      | have hidx : Octant.childIndexFor (Octant.Initialize b) box = 0 := by
          simp [Octant.childIndexFor, hx, hy, hz]
      | have hidx : Octant.childIndexFor (Octant.Initialize b) box = 1 := by
          simp [Octant.childIndexFor, hx, hy, hz]
      | have hidx : Octant.childIndexFor (Octant.Initialize b) box = 2 := by
          simp [Octant.childIndexFor, hx, hy, hz]
      | have hidx : Octant.childIndexFor (Octant.Initialize b) box = 3 := by
          simp [Octant.childIndexFor, hx, hy, hz]
      | have hidx : Octant.childIndexFor (Octant.Initialize b) box = 4 := by
          simp [Octant.childIndexFor, hx, hy, hz]
      | have hidx : Octant.childIndexFor (Octant.Initialize b) box = 5 := by
          simp [Octant.childIndexFor, hx, hy, hz]
      | have hidx : Octant.childIndexFor (Octant.Initialize b) box = 6 := by
          simp [Octant.childIndexFor, hx, hy, hz]
      | have hidx : Octant.childIndexFor (Octant.Initialize b) box = 7 := by
          simp [Octant.childIndexFor, hx, hy, hz]
  all_goals
    have hx2 := hx
    have hy2 := hy
    have hz2 := hz
    simp only [Octant.Initialize, BoundingBox.Center, Vector3.smul,
      Vector3.add, Vector3.sub, BoundingBox.Size] at hx2 hy2 hz2
    rw [hidx]
    refine ⟨by simpa using hx, by simpa using hy, by simpa using hz, ?_⟩
    simp only [Octant.childBoundingBox, Octant.Initialize,
      BoundingBox.containsPoint, BoundingBox.Center, BoundingBox.Size,
      Vector3.smul, Vector3.add, Vector3.sub]
    norm_num
    refine ⟨?_, ?_, ?_, ?_, ?_, ?_⟩ <;> linarith

/-- C8 witness: the amended theorem applied to the concrete octant box
(0,0,0)-(4,4,4) and drawable box (-19/20,1,1)-(1/20,2,2). -/
theorem C8_insert_child_descent_witness :
    (Octant.Initialize
        (Octant.childBoundingBox
          (Octant.Initialize
            { min_ := { x_ := 0, y_ := 0, z_ := 0 },
              max_ := { x_ := 4, y_ := 4, z_ := 4 } })
          (Octant.childIndexFor
            (Octant.Initialize
              { min_ := { x_ := 0, y_ := 0, z_ := 0 },
                max_ := { x_ := 4, y_ := 4, z_ := 4 } })
            { min_ := { x_ := -19/20, y_ := 1, z_ := 1 },
              max_ := { x_ := 1/20, y_ := 2, z_ := 2 } }))).cullingBox_.containsPoint
      (BoundingBox.Center
        { min_ := { x_ := -19/20, y_ := 1, z_ := 1 },
          max_ := { x_ := 1/20, y_ := 2, z_ := 2 } }) :=
  (C8_insert_child_descent 8 0
      { min_ := { x_ := 0, y_ := 0, z_ := 0 },
        max_ := { x_ := 4, y_ := 4, z_ := 4 } }
      { min_ := { x_ := -19/20, y_ := 1, z_ := 1 },
        max_ := { x_ := 1/20, y_ := 2, z_ := 2 } }
      (by norm_num) (by norm_num) (by norm_num)
      (by norm_num [Octant.CheckDrawableFit, Octant.Initialize,
        BoundingBox.Size, Vector3.smul, Vector3.sub])).2.2.2

/-- Identifier of a drawable in the drawable store. -/
abbrev DrawId := ℕ

/-- Reference to an octant: the identifier of the octree that owns it plus
the child-index path from that octree's root.  The C++ Octant pointers held
by drawables are represented by such path references; they are stable
because child slots are indexed, never compacted. -/
structure OctPtr where
  root : ℕ
  path : List ℕ
  deriving DecidableEq

/-- Modelled from the spec: Drawable.h is not among the provided sources.
Fields of an indexed object that the octree reads and writes (spec section
3, IndexedObject): occludee flag, world bounding box, back-reference to the
owning octant and the pending-update flag. -/
structure DrawableRec where
  occludee_ : Bool
  worldBoundingBox_ : BoundingBox
  octant_ : Option OctPtr
  updateQueued_ : Bool
  deriving DecidableEq

/-- An octant subtree.  null stands for a nullptr child slot; a node carries
the geometry fields, the stored level_, the subtree drawable count
numDrawables_, the list of directly contained drawables, and the eight
child slots children_[0..7]. -/
inductive Otree where
  | null : Otree
  | node (geom : OctantGeom) (level_ : ℕ) (numDrawables_ : ℕ)
      (drawables_ : List DrawId)
      (c0 c1 c2 c3 c4 c5 c6 c7 : Otree) : Otree
  deriving DecidableEq

/-- Whether this subtree is a nullptr slot. -/
def Otree.isNull : Otree → Bool
  | .null => true
  | _ => false

/-- Child slot access, children_[i]; out-of-range yields null. -/
def Otree.childAt : Otree → ℕ → Otree
  | .null, _ => .null
  | .node _ _ _ _ c0 c1 c2 c3 c4 c5 c6 c7, i =>
    match i with
    | 0 => c0
    | 1 => c1
    | 2 => c2
    | 3 => c3
    | 4 => c4
    | 5 => c5
    | 6 => c6
    | 7 => c7
    | _ => .null

/-- Child slot assignment, children_[i] = c; out-of-range is a no-op. -/
def Otree.setChildAt : Otree → ℕ → Otree → Otree
  | .null, _, _ => .null
  | .node g lvl n ds c0 c1 c2 c3 c4 c5 c6 c7, i, c =>
    match i with
    | 0 => .node g lvl n ds c c1 c2 c3 c4 c5 c6 c7
    | 1 => .node g lvl n ds c0 c c2 c3 c4 c5 c6 c7
    | 2 => .node g lvl n ds c0 c1 c c3 c4 c5 c6 c7
    | 3 => .node g lvl n ds c0 c1 c2 c c4 c5 c6 c7
    | 4 => .node g lvl n ds c0 c1 c2 c3 c c5 c6 c7
    | 5 => .node g lvl n ds c0 c1 c2 c3 c4 c c6 c7
    | 6 => .node g lvl n ds c0 c1 c2 c3 c4 c5 c c7
    | 7 => .node g lvl n ds c0 c1 c2 c3 c4 c5 c6 c
    | _ => .node g lvl n ds c0 c1 c2 c3 c4 c5 c6 c7

/-- Geometry fields of the octant at this node (junk value for null). -/
def Otree.geomOf : Otree → OctantGeom
  | .null =>
      Octant.Initialize
        { min_ := { x_ := 0, y_ := 0, z_ := 0 },
          max_ := { x_ := 0, y_ := 0, z_ := 0 } }
  | .node g _ _ _ _ _ _ _ _ _ _ _ => g

/-- Stored level_ of the octant at this node (0 for null). -/
def Otree.levelOf : Otree → ℕ
  | .null => 0
  | .node _ lvl _ _ _ _ _ _ _ _ _ _ => lvl

/-- Directly contained drawables of this octant ([] for null). -/
def Otree.drawablesOf : Otree → List DrawId
  | .null => []
  | .node _ _ _ ds _ _ _ _ _ _ _ _ => ds

/-- Stored numDrawables_ of this octant (0 for null). -/
def Otree.numDrawablesOf : Otree → ℕ
  | .null => 0
  | .node _ _ n _ _ _ _ _ _ _ _ _ => n

/-- Subtree reached by following a child-index path. -/
def Otree.sub : Otree → List ℕ → Otree
  | t, [] => t
  | t, i :: p => (t.childAt i).sub p

/-- All drawables contained in the subtree, own list first, then the
children in index order. -/
def Otree.allDrawables : Otree → List DrawId
  | .null => []
  | .node _ _ _ ds c0 c1 c2 c3 c4 c5 c6 c7 =>
      ds ++ c0.allDrawables ++ c1.allDrawables ++ c2.allDrawables ++
        c3.allDrawables ++ c4.allDrawables ++ c5.allDrawables ++
        c6.allDrawables ++ c7.allDrawables

/-- State of one octree and of the drawable store: the octree's identifier
(used for root-pointer comparisons against other octrees), the root octant,
the configured number of levels numLevels_, the drawable records, and the
pending queue drawableUpdates_. -/
structure OctreeSt where
  myId : ℕ
  tree : Otree
  numLevels_ : ℕ
  draw : DrawId → DrawableRec
  drawableUpdates_ : List DrawId

/-- Update of one drawable record in the store. -/
def OctreeSt.setDraw (st : OctreeSt) (d : DrawId) (r : DrawableRec) : OctreeSt :=
  { st with draw := Function.update st.draw d r }

/-- Octree::QueueUpdate (source lines 609-621, the mutex elided since the
drain itself is single-threaded): append the drawable to the pending list
and set its updateQueued_ flag. -/
def Octree.QueueUpdate (st : OctreeSt) (d : DrawId) : OctreeSt :=
  let st1 := { st with drawableUpdates_ := st.drawableUpdates_ ++ [d] }
  st1.setDraw d { st1.draw d with updateQueued_ := true }

/-- Push of a drawable onto the ROOT octant's list,
root_->drawables_.push_back(elem) in the destructor (source line 108);
note the destructor does not touch the root's numDrawables_. -/
def Otree.pushRootDrawable : Otree → DrawId → Otree
  | .null, _ => .null
  | .node g lvl n ds c0 c1 c2 c3 c4 c5 c6 c7, d =>
      .node g lvl n (ds ++ [d]) c0 c1 c2 c3 c4 c5 c6 c7

/-- One drawable move of Octant's destructor (source lines 105-110): set the
drawable's octant to the root, push it onto the root octant's list, and
queue it for update. -/
def Octant.moveDrawableToRoot (st : OctreeSt) (d : DrawId) : OctreeSt :=
  let st1 := st.setDraw d
    { st.draw d with octant_ := some { root := st.myId, path := [] } }
  let st2 := { st1 with tree := st1.tree.pushRootDrawable d }
  Octree.QueueUpdate st2 d

/-- Octant's destructor (source lines 100-117) applied to a subtree that is
being deleted: when the root back-reference is non-null (rootAlive), move
every directly contained drawable to the root octant, then destroy the
eight children in index order (the DeleteChild calls inside a destructor
reduce to destroying the child subtrees, since the dying parent itself is
discarded by the caller). -/
def Octant.destruct (rootAlive : Bool) (st : OctreeSt) : Otree → OctreeSt
  | .null => st
  | .node _ _ _ ds c0 c1 c2 c3 c4 c5 c6 c7 =>
    let st1 := if rootAlive then ds.foldl Octant.moveDrawableToRoot st else st
    let st2 := Octant.destruct rootAlive st1 c0
    let st3 := Octant.destruct rootAlive st2 c1
    let st4 := Octant.destruct rootAlive st3 c2
    let st5 := Octant.destruct rootAlive st4 c3
    let st6 := Octant.destruct rootAlive st5 c4
    let st7 := Octant.destruct rootAlive st6 c5
    let st8 := Octant.destruct rootAlive st7 c6
    Octant.destruct rootAlive st8 c7

/-- Octant::DeleteChild (source lines 147-152) invoked on the root octant,
as Octree::SetSize does: run the child's destructor (with the root alive),
then null the child slot. -/
def Octant.DeleteChild (st : OctreeSt) (i : ℕ) : OctreeSt :=
  let st1 := Octant.destruct true st (st.tree.childAt i)
  { st1 with tree := st1.tree.setChildAt i .null }

/-- Reinitialization part of Octree::SetSize (source lines 391-392):
Initialize(box) on the root octant and numDrawables_ = drawables_.size(). -/
def Otree.initRoot : Otree → BoundingBox → Otree
  | .null, _ => .null
  | .node _ lvl _ ds c0 c1 c2 c3 c4 c5 c6 c7, box =>
      .node (Octant.Initialize box) lvl ds.length ds c0 c1 c2 c3 c4 c5 c6 c7

/-- Octree::SetSize (source lines 383-394): delete all eight children (each
destructor moves its subtree's drawables to the root and queues them), then
reinitialize the root geometry from the new box, refresh the root drawable
count from the list length, and clamp the level count to at least 1. -/
def Octree.SetSize (st : OctreeSt) (box : BoundingBox) (numLevels : ℕ) :
    OctreeSt :=
  let st1 := Octant.DeleteChild st 0
  let st2 := Octant.DeleteChild st1 1
  let st3 := Octant.DeleteChild st2 2
  let st4 := Octant.DeleteChild st3 3
  let st5 := Octant.DeleteChild st4 4
  let st6 := Octant.DeleteChild st5 5
  let st7 := Octant.DeleteChild st6 6
  let st8 := Octant.DeleteChild st7 7
  { st8 with tree := st8.tree.initRoot box, numLevels_ := max numLevels 1 }

/-- A freshly constructed Octant (constructor, source lines 87-98): geometry
initialized from the box, the given level, no drawables, all children null. -/
def Otree.freshOctant (box : BoundingBox) (level : ℕ) : Otree :=
  .node (Octant.Initialize box) level 0 []
    .null .null .null .null .null .null .null .null

/-- Insertion descent through octants created lazily by GetOrCreateChild
(source lines 119-145 and 177-185): starting from a newly created octant
with world box b at the given level, place the drawable and return the
built subtree together with the relative destination path.  Every chain
node's numDrawables_ ends at 1 because AddDrawable's IncDrawableCount walks
all ancestors.  The fuel argument equals numLevels - level at every
reachable call; the fuel-exhausted base case cannot be reached because
CheckDrawableFit is true whenever numLevels is at most level, and is given
the same result as the fitting case only to keep the function total. -/
def Octant.insertVirtualGo (numLevels : ℕ) (boxD : BoundingBox) (d : DrawId) :
    ℕ → BoundingBox → ℕ → Otree × List ℕ
  | fuel, b, level =>
    let g := Octant.Initialize b
    if Octant.CheckDrawableFit numLevels level g boxD then
      (.node g level 1 [d] .null .null .null .null .null .null .null .null, [])
    else
      match fuel with
      | 0 =>
          (.node g level 1 [d] .null .null .null .null .null .null .null .null,
            [])
      | fuel' + 1 =>
        let i := Octant.childIndexFor g boxD
        let sp := Octant.insertVirtualGo numLevels boxD d fuel'
          (Octant.childBoundingBox g i) (level + 1)
        (Otree.setChildAt
            (.node g level 1 [] .null .null .null .null .null .null .null .null)
            i sp.1,
          i :: sp.2)

/-- Octant::InsertDrawable recursion (source lines 154-186) over existing
octants: returns the updated subtree and the relative destination path.
At every level below the root only CheckDrawableFit decides (the this ==
root_ disjunction is handled by Octree.InsertDrawable); a missing child on
the descent is created by GetOrCreateChild, modelled by the virtual
descent; the destination octant's list gains the drawable and every node on
the descent path gets IncDrawableCount's increment. -/
def Octant.insertInto (numLevels : ℕ) (boxD : BoundingBox) (d : DrawId) :
    Otree → Otree × List ℕ
  | .null => (.null, [])
  | .node g lvl n ds c0 c1 c2 c3 c4 c5 c6 c7 =>
    if Octant.CheckDrawableFit numLevels lvl g boxD then
      (.node g lvl (n + 1) (ds ++ [d]) c0 c1 c2 c3 c4 c5 c6 c7, [])
    else
      let i := Octant.childIndexFor g boxD
      let t := Otree.node g lvl (n + 1) ds c0 c1 c2 c3 c4 c5 c6 c7
      match i with
      | 0 =>
        if c0.isNull then
          let sp := Octant.insertVirtualGo numLevels boxD d
            (numLevels - (lvl + 1)) (Octant.childBoundingBox g 0) (lvl + 1)
          (t.setChildAt 0 sp.1, 0 :: sp.2)
        else
          let sp := Octant.insertInto numLevels boxD d c0
          (t.setChildAt 0 sp.1, 0 :: sp.2)
      | 1 =>
        if c1.isNull then
          let sp := Octant.insertVirtualGo numLevels boxD d
            (numLevels - (lvl + 1)) (Octant.childBoundingBox g 1) (lvl + 1)
          (t.setChildAt 1 sp.1, 1 :: sp.2)
        else
          let sp := Octant.insertInto numLevels boxD d c1
          (t.setChildAt 1 sp.1, 1 :: sp.2)
      | 2 =>
        if c2.isNull then
          let sp := Octant.insertVirtualGo numLevels boxD d
            (numLevels - (lvl + 1)) (Octant.childBoundingBox g 2) (lvl + 1)
          (t.setChildAt 2 sp.1, 2 :: sp.2)
        else
          let sp := Octant.insertInto numLevels boxD d c2
          (t.setChildAt 2 sp.1, 2 :: sp.2)
      | 3 =>
        if c3.isNull then
          let sp := Octant.insertVirtualGo numLevels boxD d
            (numLevels - (lvl + 1)) (Octant.childBoundingBox g 3) (lvl + 1)
          (t.setChildAt 3 sp.1, 3 :: sp.2)
        else
          let sp := Octant.insertInto numLevels boxD d c3
          (t.setChildAt 3 sp.1, 3 :: sp.2)
      | 4 =>
        if c4.isNull then
          let sp := Octant.insertVirtualGo numLevels boxD d
            (numLevels - (lvl + 1)) (Octant.childBoundingBox g 4) (lvl + 1)
          (t.setChildAt 4 sp.1, 4 :: sp.2)
        else
          let sp := Octant.insertInto numLevels boxD d c4
          (t.setChildAt 4 sp.1, 4 :: sp.2)
      | 5 =>
        if c5.isNull then
          let sp := Octant.insertVirtualGo numLevels boxD d
            (numLevels - (lvl + 1)) (Octant.childBoundingBox g 5) (lvl + 1)
          (t.setChildAt 5 sp.1, 5 :: sp.2)
        else
          let sp := Octant.insertInto numLevels boxD d c5
          (t.setChildAt 5 sp.1, 5 :: sp.2)
      | 6 =>
        if c6.isNull then
          let sp := Octant.insertVirtualGo numLevels boxD d
            (numLevels - (lvl + 1)) (Octant.childBoundingBox g 6) (lvl + 1)
          (t.setChildAt 6 sp.1, 6 :: sp.2)
        else
          let sp := Octant.insertInto numLevels boxD d c6
          (t.setChildAt 6 sp.1, 6 :: sp.2)
      | 7 =>
        if c7.isNull then
          let sp := Octant.insertVirtualGo numLevels boxD d
            (numLevels - (lvl + 1)) (Octant.childBoundingBox g 7) (lvl + 1)
          (t.setChildAt 7 sp.1, 7 :: sp.2)
        else
          let sp := Octant.insertInto numLevels boxD d c7
          (t.setChildAt 7 sp.1, 7 :: sp.2)
      | _ =>
          (.node g lvl (n + 1) (ds ++ [d]) c0 c1 c2 c3 c4 c5 c6 c7, [])

/-- The root octant's insertHere condition of Octant::InsertDrawable (source
lines 158-162): insert at the root when the drawable is not an occludee, or
its world box is not fully inside the root culling box, or CheckDrawableFit
holds at the root. -/
def Octree.rootInsertHere (st : OctreeSt) (dr : DrawableRec) : Bool :=
  !dr.occludee_ ||
    decide (BoundingBox.IsInside st.tree.geomOf.cullingBox_ dr.worldBoundingBox_
        ≠ Intersection.INSIDE) ||
    Octant.CheckDrawableFit st.numLevels_ st.tree.levelOf st.tree.geomOf
      dr.worldBoundingBox_

/-- Modelled from the spec: the branch-emptiness criterion of spec sections
3 and 4.1 (octant with zero contained objects and zero non-null children),
used when collapsing after removal. -/
def Otree.emptyBranch : Otree → Bool
  | .null => false
  | .node _ _ _ ds c0 c1 c2 c3 c4 c5 c6 c7 =>
      ds.isEmpty && c0.isNull && c1.isNull && c2.isNull && c3.isNull &&
        c4.isNull && c5.isNull && c6.isNull && c7.isNull

/-- Modelled from the spec: Octant::RemoveDrawable and DecDrawableCount are
inline members of Octree.h, which is not among the provided sources.
Removal of a drawable from the octant at the given path (spec section 4.1
Remove): unlink it from that octant's list, decrement the occupant count on
the whole chain, and delete a branch that has become empty (no objects, no
living children), cascading upward but never removing the root. -/
def Octant.removeAt : Otree → List ℕ → DrawId → Otree
  | .null, _, _ => .null
  | .node g lvl n ds c0 c1 c2 c3 c4 c5 c6 c7, [], d =>
      .node g lvl (n - 1) (ds.erase d) c0 c1 c2 c3 c4 c5 c6 c7
  | .node g lvl n ds c0 c1 c2 c3 c4 c5 c6 c7, i :: p, d =>
      let c' := Octant.removeAt
        ((Otree.node g lvl n ds c0 c1 c2 c3 c4 c5 c6 c7).childAt i) p d
      let c'' := if c'.emptyBranch then Otree.null else c'
      Otree.setChildAt (.node g lvl (n - 1) ds c0 c1 c2 c3 c4 c5 c6 c7) i c''

/-- Octant::InsertDrawable entered at the root octant, i.e. what
Octree::InsertDrawable performs (source lines 154-186): compute the
destination octant - the root itself when the root insertHere disjunction
holds, else by recursive descent - and, unless the drawable already lives
exactly there, add it to the destination (add first) and then remove it
from its previous octant (remove second, collapsing empty branches); a
previous octant belonging to another octree is outside this state and left
alone. -/
def Octree.InsertDrawable (st : OctreeSt) (d : DrawId) : OctreeSt :=
  let dr := st.draw d
  let tp : Otree × List ℕ :=
    if Octree.rootInsertHere st dr then
      (match st.tree with
       | .null => .null
       | .node g lvl n ds c0 c1 c2 c3 c4 c5 c6 c7 =>
           .node g lvl (n + 1) (ds ++ [d]) c0 c1 c2 c3 c4 c5 c6 c7,
       [])
    else Octant.insertInto st.numLevels_ dr.worldBoundingBox_ d st.tree
  if dr.octant_ = some { root := st.myId, path := tp.2 } then st
  else
    let st1 :=
      { st.setDraw d { dr with octant_ := some { root := st.myId, path := tp.2 } }
          with tree := tp.1 }
    match dr.octant_ with
    | none => st1
    | some p =>
        if p.root = st.myId then
          { st1 with tree := Octant.removeAt st1.tree p.path d }
        else st1

/-- The first statement of Update's reinsertion loop body (source line 459):
drawable->updateQueued_ = false. -/
def Octree.clearQueued (st : OctreeSt) (d : DrawId) : OctreeSt :=
  st.setDraw d { st.draw d with updateQueued_ := false }

/-- Loop body of the reinsertion phase of Octree::Update (source lines
456-481): clear the pending flag; skip when the drawable has no octant or
its octant's root is not this octree; skip when it is an occludee whose box
is fully inside its octant's culling box and still fits it; otherwise
reinsert through InsertDrawable. -/
def Octree.reinsertStep (st : OctreeSt) (d : DrawId) : OctreeSt :=
  let st1 := Octree.clearQueued st d
  let dr := st1.draw d
  match dr.octant_ with
  | none => st1
  | some p =>
    if p.root ≠ st1.myId then st1
    else
      let oct := st1.tree.sub p.path
      if dr.occludee_ &&
         decide (BoundingBox.IsInside oct.geomOf.cullingBox_
             dr.worldBoundingBox_ = Intersection.INSIDE) &&
         Octant.CheckDrawableFit st1.numLevels_ oct.levelOf oct.geomOf
           dr.worldBoundingBox_ then
        st1
      else
        Octree.InsertDrawable st1 d

/-- Reinsertion phase of Octree::Update (source lines 450-485): process
every queued drawable in order, then clear the pending list.  Phase (a) of
Update - the parallel per-drawable Update callbacks - only runs external
per-object code and is not part of the octree state. -/
def Octree.UpdateReinsert (st : OctreeSt) : OctreeSt :=
  let st1 := st.drawableUpdates_.foldl Octree.reinsertStep st
  { st1 with drawableUpdates_ := [] }

/-- The skip condition exactly as the claim states it, over the pre-step
state: (i) the drawable has no current octant or its octant's root is not
this octree, or (ii) its occludee flag is set and its current octant's
culling box fully contains its world box and CheckDrawableFit holds for
that box. -/
def Octree.reinsertSkips (st : OctreeSt) (d : DrawId) : Prop :=
  (∀ p, (st.draw d).octant_ = some p → p.root ≠ st.myId) ∨
  (∃ p, (st.draw d).octant_ = some p ∧ p.root = st.myId ∧
    (st.draw d).occludee_ = true ∧
    BoundingBox.IsInside (st.tree.sub p.path).geomOf.cullingBox_
        (st.draw d).worldBoundingBox_ = Intersection.INSIDE ∧
    Octant.CheckDrawableFit st.numLevels_ (st.tree.sub p.path).levelOf
        (st.tree.sub p.path).geomOf (st.draw d).worldBoundingBox_ = true)

/-- Helper: reading the drawable just modified by clearQueued. -/
theorem clearQueued_draw_self (st : OctreeSt) (d : DrawId) :
    (Octree.clearQueued st d).draw d
      = { st.draw d with updateQueued_ := false } := by
  simp [Octree.clearQueued, OctreeSt.setDraw]

/-- C3: in the reinsertion phase of Update, a queued drawable is skipped -
only its pending flag is cleared, the tree and every record stay untouched -
exactly when (i) it has no current octant or its octant's root is not this
octree, or (ii) it is an occludee whose world box is fully inside its
octant's culling box and which still passes CheckDrawableFit; every other
queued drawable is reinserted through InsertDrawable, and the pending list
is cleared at the end of the phase.  The final conjunct states the special
case the claim singles out: a non-occludee drawable with a valid octant is
always re-evaluated. -/
theorem C3_update_reinsertion (st : OctreeSt) (d : DrawId) :
    (Octree.UpdateReinsert st).drawableUpdates_ = [] ∧
    (Octree.reinsertSkips st d →
        Octree.reinsertStep st d = Octree.clearQueued st d) ∧
    (¬ Octree.reinsertSkips st d →
        Octree.reinsertStep st d =
          Octree.InsertDrawable (Octree.clearQueued st d) d) ∧
    (∀ p, (st.draw d).octant_ = some p → p.root = st.myId →
        (st.draw d).occludee_ = false →
        Octree.reinsertStep st d =
          Octree.InsertDrawable (Octree.clearQueued st d) d) := by
  refine ⟨rfl, ?_, ?_, ?_⟩
  · intro hskip
    rcases hoct : (st.draw d).octant_ with _ | p
    · simp [Octree.reinsertStep, Octree.clearQueued, OctreeSt.setDraw, hoct]
    · rcases hskip with h1 | ⟨p', hp', hroot, hocc, hin, hfit⟩
      · have hro := h1 p hoct
        simp [Octree.reinsertStep, Octree.clearQueued, OctreeSt.setDraw, hoct,
          hro]
      · rw [hoct] at hp'
        injection hp' with hpp
        subst hpp
        simp [Octree.reinsertStep, Octree.clearQueued, OctreeSt.setDraw, hoct,
          hroot, hocc, hin, hfit]
  · intro hskip
    rcases hoct : (st.draw d).octant_ with _ | p
    · exact absurd (Or.inl fun p hp => by rw [hoct] at hp; cases hp) hskip
    · have hroot : p.root = st.myId := by
        by_contra hne
        refine hskip (Or.inl fun p' hp' => ?_)
        rw [hoct] at hp'
        injection hp' with e
        rw [← e]
        exact hne
      simp only [Octree.reinsertStep, Octree.clearQueued, OctreeSt.setDraw,
        Function.update_same, hoct, hroot, ne_eq, not_true_eq_false,
        if_false, Bool.and_eq_true, decide_eq_true_eq, ite_eq_right_iff,
        and_imp]
      intro h1 h2 h3
      exact absurd (Or.inr ⟨p, hoct, hroot, h1, h2, h3⟩) hskip
  · intro p hp hroot hocc
    simp [Octree.reinsertStep, Octree.clearQueued, OctreeSt.setDraw, hp,
      hroot, hocc]

/-- C3 witness: a drawable with no current octant is skipped, with only its
pending flag cleared. -/
theorem C3_update_reinsertion_witness :
    Octree.reinsertStep
        { myId := 0, tree := Otree.null, numLevels_ := 8,
          draw := fun _ =>
            { occludee_ := true,
              worldBoundingBox_ :=
                { min_ := { x_ := 0, y_ := 0, z_ := 0 },
                  max_ := { x_ := 1, y_ := 1, z_ := 1 } },
              octant_ := none, updateQueued_ := true },
          drawableUpdates_ := [0] } 0 =
      Octree.clearQueued
        { myId := 0, tree := Otree.null, numLevels_ := 8,
          draw := fun _ =>
            { occludee_ := true,
              worldBoundingBox_ :=
                { min_ := { x_ := 0, y_ := 0, z_ := 0 },
                  max_ := { x_ := 1, y_ := 1, z_ := 1 } },
              octant_ := none, updateQueued_ := true },
          drawableUpdates_ := [0] } 0 :=
  (C3_update_reinsertion _ 0).2.1 (Or.inl fun _ hp => Option.noConfusion hp)

/-- Helper: setting a child slot leaves the node's own drawable list alone. -/
theorem Otree.drawablesOf_setChildAt (t : Otree) (i : ℕ) (c : Otree) :
    (t.setChildAt i c).drawablesOf = t.drawablesOf := by
  cases t
  · rfl
  · rcases i with _|_|_|_|_|_|_|_|i <;> rfl

/-- Helper: setting a child slot leaves the node's geometry alone. -/
theorem Otree.geomOf_setChildAt (t : Otree) (i : ℕ) (c : Otree) :
    (t.setChildAt i c).geomOf = t.geomOf := by
  cases t
  · rfl
  · rcases i with _|_|_|_|_|_|_|_|i <;> rfl

/-- Helper: setting a child slot leaves the node's level alone. -/
theorem Otree.levelOf_setChildAt (t : Otree) (i : ℕ) (c : Otree) :
    (t.setChildAt i c).levelOf = t.levelOf := by
  cases t
  · rfl
  · rcases i with _|_|_|_|_|_|_|_|i <;> rfl

/-- Helper: setting a child slot leaves the node's stored count alone. -/
theorem Otree.numDrawablesOf_setChildAt (t : Otree) (i : ℕ) (c : Otree) :
    (t.setChildAt i c).numDrawablesOf = t.numDrawablesOf := by
  cases t
  · rfl
  · rcases i with _|_|_|_|_|_|_|_|i <;> rfl

/-- Helper: setting a child slot leaves nullness alone. -/
theorem Otree.isNull_setChildAt (t : Otree) (i : ℕ) (c : Otree) :
    (t.setChildAt i c).isNull = t.isNull := by
  cases t
  · rfl
  · rcases i with _|_|_|_|_|_|_|_|i <;> rfl

/-- Helper: reading back a child slot other than the one just set. -/
theorem Otree.childAt_setChildAt_ne (t : Otree) (i j : ℕ) (c : Otree)
    (h : i ≠ j) : (t.setChildAt i c).childAt j = t.childAt j := by
  cases t
  · rfl
  · rcases i with _|_|_|_|_|_|_|_|i <;>
      rcases j with _|_|_|_|_|_|_|_|j <;>
      first
        | rfl
        | exact absurd rfl h

/-- Helper: reading back the child slot just set on a live node. -/
theorem Otree.childAt_setChildAt_self (t : Otree) (i : ℕ) (c : Otree)
    (hi : i < 8) (ht : t.isNull = false) :
    (t.setChildAt i c).childAt i = c := by
  cases t
  · simp [Otree.isNull] at ht
  · rcases i with _|_|_|_|_|_|_|_|i <;> first | rfl | omega

/-- Helper: the drawable list of a literal node. -/
theorem Otree.drawablesOf_node (g : OctantGeom) (lvl n : ℕ)
    (ds : List DrawId) (c0 c1 c2 c3 c4 c5 c6 c7 : Otree) :
    (Otree.node g lvl n ds c0 c1 c2 c3 c4 c5 c6 c7).drawablesOf = ds := rfl

/-- Helper: removal along a nonempty path leaves the root list alone. -/
theorem Octant.removeAt_cons_drawablesOf (t : Otree) (i : ℕ) (p : List ℕ)
    (d : DrawId) :
    (Octant.removeAt t (i :: p) d).drawablesOf = t.drawablesOf := by
  cases t
  · rfl
  · simp only [Octant.removeAt, Otree.drawablesOf_setChildAt]
    rfl

/-- C4: a drawable that is not an occludee, or whose world box is not fully
inside the root octant's culling box, is placed by InsertDrawable directly
in the root octant itself: the root insertHere disjunction fires, so the
destination path is empty (no descent into any child), the drawable's
octant back-reference ends at the root, and the drawable is in the root
octant's list afterwards. -/
theorem C4_insert_at_root (st : OctreeSt) (d : DrawId)
    (hroot : st.tree.isNull = false)
    (hcoh : (st.draw d).octant_ =
        some { root := st.myId, path := ([] : List ℕ) } →
        d ∈ st.tree.drawablesOf)
    (hcase : (st.draw d).occludee_ = false ∨
        BoundingBox.IsInside st.tree.geomOf.cullingBox_
            (st.draw d).worldBoundingBox_ ≠ Intersection.INSIDE) :
    Octree.rootInsertHere st (st.draw d) = true ∧
    ((Octree.InsertDrawable st d).draw d).octant_ =
        some { root := st.myId, path := [] } ∧
    d ∈ (Octree.InsertDrawable st d).tree.drawablesOf := by
  have hih : Octree.rootInsertHere st (st.draw d) = true := by
    rcases hcase with hc | hc <;> simp [Octree.rootInsertHere, hc]
  refine ⟨hih, ?_⟩
  by_cases hold : (st.draw d).octant_ =
      some { root := st.myId, path := ([] : List ℕ) }
  · have hstep : Octree.InsertDrawable st d = st := by
      simp [Octree.InsertDrawable, hih, hold]
    rw [hstep]
    exact ⟨hold, hcoh hold⟩
  · cases htree : st.tree with
    | null =>
        rw [htree] at hroot
        simp [Otree.isNull] at hroot
    | node g lvl n ds cc0 cc1 cc2 cc3 cc4 cc5 cc6 cc7 =>
      rcases hoct : (st.draw d).octant_ with _ | p
      · constructor
        · simp [Octree.InsertDrawable, hih, hold, hoct, OctreeSt.setDraw,
            htree]
        · simp [Octree.InsertDrawable, hih, hold, hoct, OctreeSt.setDraw,
            htree, Otree.drawablesOf]
      · obtain ⟨pr, pp⟩ := p
        by_cases hpr : pr = st.myId
        · subst hpr
          have hpath : pp ≠ [] := by
            intro hnil
            apply hold
            rw [hoct, hnil]
          constructor
          · simp [Octree.InsertDrawable, hih, hoct, hpath, OctreeSt.setDraw,
              htree]
          · rcases pp with _ | ⟨i, rest⟩
            · exact absurd rfl hpath
            · simp [Octree.InsertDrawable, hih, hoct, OctreeSt.setDraw, htree,
                Octant.removeAt_cons_drawablesOf, Otree.drawablesOf_node]
        · constructor
          · simp [Octree.InsertDrawable, hih, hoct, hpr, OctreeSt.setDraw,
              htree]
          · simp [Octree.InsertDrawable, hih, hoct, hpr, OctreeSt.setDraw,
              htree, Otree.drawablesOf]

/-- C4 witness: a non-occludee drawable inserted into a one-node octree ends
up at the root. -/
theorem C4_insert_at_root_witness :
    ((Octree.InsertDrawable
        { myId := 0,
          tree := Otree.freshOctant
            { min_ := { x_ := 0, y_ := 0, z_ := 0 },
              max_ := { x_ := 4, y_ := 4, z_ := 4 } } 0,
          numLevels_ := 8,
          draw := fun _ =>
            { occludee_ := false,
              worldBoundingBox_ :=
                { min_ := { x_ := 1, y_ := 1, z_ := 1 },
                  max_ := { x_ := 2, y_ := 2, z_ := 2 } },
              octant_ := none, updateQueued_ := false },
          drawableUpdates_ := [] } 3).draw 3).octant_ =
      some { root := 0, path := [] } :=
  ((C4_insert_at_root
      { myId := 0,
        tree := Otree.freshOctant
          { min_ := { x_ := 0, y_ := 0, z_ := 0 },
            max_ := { x_ := 4, y_ := 4, z_ := 4 } } 0,
        numLevels_ := 8,
        draw := fun _ =>
          { occludee_ := false,
            worldBoundingBox_ :=
              { min_ := { x_ := 1, y_ := 1, z_ := 1 },
                max_ := { x_ := 2, y_ := 2, z_ := 2 } },
            octant_ := none, updateQueued_ := false },
        drawableUpdates_ := [] }
      3 rfl (fun h => Option.noConfusion h) (Or.inl rfl)).2.1)

/-- Helper relation: st' differs from st only by destructor effects - drawables
appended to the root octant's list and to the pending queue, and drawable
records rewritten to point at the root with their update queued.  Everything
else (identity, level configuration, the root's geometry, level, stored
count, nullness and children) is unchanged. -/
def DestructExtends (st st' : OctreeSt) : Prop :=
  st'.myId = st.myId ∧
  st'.numLevels_ = st.numLevels_ ∧
  (∃ l, st'.drawableUpdates_ = st.drawableUpdates_ ++ l) ∧
  (∃ l, st'.tree.drawablesOf = st.tree.drawablesOf ++ l) ∧
  st'.tree.isNull = st.tree.isNull ∧
  (∀ i, st'.tree.childAt i = st.tree.childAt i) ∧
  st'.tree.geomOf = st.tree.geomOf ∧
  st'.tree.levelOf = st.tree.levelOf ∧
  st'.tree.numDrawablesOf = st.tree.numDrawablesOf ∧
  (∀ e, st'.draw e = st.draw e ∨
      st'.draw e =
        { st.draw e with
            octant_ := some { root := st.myId, path := [] },
            updateQueued_ := true })

/-- Helper: the destructor has moved drawable d to the root octant of st. -/
def MovedToRoot (st : OctreeSt) (d : DrawId) : Prop :=
  (st.draw d).octant_ = some { root := st.myId, path := [] } ∧
  (st.draw d).updateQueued_ = true ∧
  d ∈ st.tree.drawablesOf ∧
  d ∈ st.drawableUpdates_

theorem destructExtends_refl (st : OctreeSt) : DestructExtends st st :=
  ⟨rfl, rfl, ⟨[], by simp⟩, ⟨[], by simp⟩, rfl, fun _ => rfl, rfl, rfl, rfl,
    fun _ => Or.inl rfl⟩

theorem destructExtends_trans (s1 s2 s3 : OctreeSt)
    (h12 : DestructExtends s1 s2) (h23 : DestructExtends s2 s3) :
    DestructExtends s1 s3 := by
  obtain ⟨hm12, hn12, ⟨l12, hq12⟩, ⟨k12, hd12⟩, hi12, hc12, hg12, hl12, hnd12,
    hr12⟩ := h12
  obtain ⟨hm23, hn23, ⟨l23, hq23⟩, ⟨k23, hd23⟩, hi23, hc23, hg23, hl23, hnd23,
    hr23⟩ := h23
  refine ⟨hm23.trans hm12, hn23.trans hn12,
    ⟨l12 ++ l23, by rw [hq23, hq12, List.append_assoc]⟩,
    ⟨k12 ++ k23, by rw [hd23, hd12, List.append_assoc]⟩,
    hi23.trans hi12, fun i => (hc23 i).trans (hc12 i), hg23.trans hg12,
    hl23.trans hl12, hnd23.trans hnd12, ?_⟩
  intro e
  rcases hr23 e with h3 | h3 <;> rcases hr12 e with h2 | h2
  · exact Or.inl (h3.trans h2)
  · exact Or.inr (h3.trans h2)
  · rw [h3, h2]
    exact Or.inr (by rw [hm12])
  · rw [h3, h2]
    exact Or.inr (by rw [hm12])

/-- Helper: moved-to-root facts survive further destructor effects. -/
theorem movedToRoot_mono (st st' : OctreeSt) (d : DrawId)
    (hext : DestructExtends st st') (hm : MovedToRoot st d) :
    MovedToRoot st' d := by
  obtain ⟨hmy, _, ⟨lq, hq⟩, ⟨ld, hd⟩, _, _, _, _, _, hr⟩ := hext
  obtain ⟨ho, hu, hin, hpend⟩ := hm
  refine ⟨?_, ?_, ?_, ?_⟩
  · rcases hr d with h | h <;> rw [h] <;> simp [ho, hmy]
  · rcases hr d with h | h <;> rw [h] <;> simp [hu]
  · rw [hd]
    exact List.mem_append_left _ hin
  · rw [hq]
    exact List.mem_append_left _ hpend

/-- Helper: effects of one destructor drawable move. -/
theorem moveDrawableToRoot_effects (st : OctreeSt) (d : DrawId)
    (hroot : st.tree.isNull = false) :
    DestructExtends st (Octant.moveDrawableToRoot st d) ∧
    MovedToRoot (Octant.moveDrawableToRoot st d) d := by
  cases htree : st.tree with
  | null =>
      rw [htree] at hroot
      simp [Otree.isNull] at hroot
  | node g lvl n ds cc0 cc1 cc2 cc3 cc4 cc5 cc6 cc7 =>
    constructor
    · refine ⟨rfl, rfl, ⟨[d], rfl⟩, ⟨[d], ?_⟩, ?_, ?_, ?_, ?_, ?_, ?_⟩
      · simp [Octant.moveDrawableToRoot, Octree.QueueUpdate, OctreeSt.setDraw,
          htree, Otree.pushRootDrawable, Otree.drawablesOf_node]
      · simp [Octant.moveDrawableToRoot, Octree.QueueUpdate, OctreeSt.setDraw,
          htree, Otree.pushRootDrawable, Otree.isNull]
      · intro i
        simp [Octant.moveDrawableToRoot, Octree.QueueUpdate, OctreeSt.setDraw,
          htree, Otree.pushRootDrawable, Otree.childAt]
      · simp [Octant.moveDrawableToRoot, Octree.QueueUpdate, OctreeSt.setDraw,
          htree, Otree.pushRootDrawable, Otree.geomOf]
      · simp [Octant.moveDrawableToRoot, Octree.QueueUpdate, OctreeSt.setDraw,
          htree, Otree.pushRootDrawable, Otree.levelOf]
      · simp [Octant.moveDrawableToRoot, Octree.QueueUpdate, OctreeSt.setDraw,
          htree, Otree.pushRootDrawable, Otree.numDrawablesOf]
      · intro e
        by_cases he : e = d
        · subst he
          refine Or.inr ?_
          simp [Octant.moveDrawableToRoot, Octree.QueueUpdate,
            OctreeSt.setDraw, Function.update_same]
        · refine Or.inl ?_
          simp [Octant.moveDrawableToRoot, Octree.QueueUpdate,
            OctreeSt.setDraw, Function.update_noteq he]
    · refine ⟨?_, ?_, ?_, ?_⟩
      · simp [Octant.moveDrawableToRoot, Octree.QueueUpdate, OctreeSt.setDraw,
          Function.update_same]
      · simp [Octant.moveDrawableToRoot, Octree.QueueUpdate, OctreeSt.setDraw,
          Function.update_same]
      · simp [Octant.moveDrawableToRoot, Octree.QueueUpdate, OctreeSt.setDraw,
          htree, Otree.pushRootDrawable, Otree.drawablesOf_node]
      · simp [Octant.moveDrawableToRoot, Octree.QueueUpdate, OctreeSt.setDraw]

/-- Helper: effects of the destructor's drawable-move loop over a list. -/
theorem foldl_move_effects (ds : List DrawId) (st : OctreeSt)
    (hroot : st.tree.isNull = false) :
    DestructExtends st (ds.foldl Octant.moveDrawableToRoot st) ∧
    ∀ d ∈ ds, MovedToRoot (ds.foldl Octant.moveDrawableToRoot st) d := by
  induction ds generalizing st with
  | nil => exact ⟨destructExtends_refl st, by simp⟩
  | cons d ds ih =>
    obtain ⟨hext1, hmov1⟩ := moveDrawableToRoot_effects st d hroot
    have hroot1 : (Octant.moveDrawableToRoot st d).tree.isNull = false := by
      rw [hext1.2.2.2.2.1, hroot]
    obtain ⟨hext2, hmov2⟩ := ih (Octant.moveDrawableToRoot st d) hroot1
    refine ⟨destructExtends_trans _ _ _ hext1 hext2, ?_⟩
    intro e he
    rcases List.mem_cons.mp he with he | he
    · subst he
      exact movedToRoot_mono _ _ e hext2 hmov1
    · exact hmov2 e he

/-- Helper: the destructor on an arbitrary subtree only performs destructor
effects, and every drawable contained anywhere in the subtree ends up moved
to the root octant: octant reference at the root, update queued, present in
the root octant's list and in the pending queue. -/
theorem destruct_effects (t : Otree) (st : OctreeSt)
    (hroot : st.tree.isNull = false) :
    DestructExtends st (Octant.destruct true st t) ∧
    ∀ d ∈ t.allDrawables, MovedToRoot (Octant.destruct true st t) d := by
  induction t generalizing st with
  | null => exact ⟨destructExtends_refl st, by simp [Otree.allDrawables]⟩
  | node g lvl n ds cc0 cc1 cc2 cc3 cc4 cc5 cc6 cc7
      ih0 ih1 ih2 ih3 ih4 ih5 ih6 ih7 =>
    obtain ⟨hextd, hmovd⟩ := foldl_move_effects ds st hroot
    have h0 := ih0 _ (by rw [hextd.2.2.2.2.1, hroot])
    have h1 := ih1 _ (by rw [h0.1.2.2.2.2.1, hextd.2.2.2.2.1, hroot])
    have h2 := ih2 _ (by
      rw [h1.1.2.2.2.2.1, h0.1.2.2.2.2.1, hextd.2.2.2.2.1, hroot])
    have h3 := ih3 _ (by
      rw [h2.1.2.2.2.2.1, h1.1.2.2.2.2.1, h0.1.2.2.2.2.1, hextd.2.2.2.2.1,
        hroot])
    have h4 := ih4 _ (by
      rw [h3.1.2.2.2.2.1, h2.1.2.2.2.2.1, h1.1.2.2.2.2.1, h0.1.2.2.2.2.1,
        hextd.2.2.2.2.1, hroot])
    have h5 := ih5 _ (by
      rw [h4.1.2.2.2.2.1, h3.1.2.2.2.2.1, h2.1.2.2.2.2.1, h1.1.2.2.2.2.1,
        h0.1.2.2.2.2.1, hextd.2.2.2.2.1, hroot])
    have h6 := ih6 _ (by
      rw [h5.1.2.2.2.2.1, h4.1.2.2.2.2.1, h3.1.2.2.2.2.1, h2.1.2.2.2.2.1,
        h1.1.2.2.2.2.1, h0.1.2.2.2.2.1, hextd.2.2.2.2.1, hroot])
    have h7 := ih7 _ (by
      rw [h6.1.2.2.2.2.1, h5.1.2.2.2.2.1, h4.1.2.2.2.2.1, h3.1.2.2.2.2.1,
        h2.1.2.2.2.2.1, h1.1.2.2.2.2.1, h0.1.2.2.2.2.1, hextd.2.2.2.2.1,
        hroot])
    have e01 := destructExtends_trans _ _ _ hextd h0.1
    have e02 := destructExtends_trans _ _ _ e01 h1.1
    have e03 := destructExtends_trans _ _ _ e02 h2.1
    have e04 := destructExtends_trans _ _ _ e03 h3.1
    have e05 := destructExtends_trans _ _ _ e04 h4.1
    have e06 := destructExtends_trans _ _ _ e05 h5.1
    have e07 := destructExtends_trans _ _ _ e06 h6.1
    have e08 := destructExtends_trans _ _ _ e07 h7.1
    have e18 := destructExtends_trans _ _ _
      (destructExtends_trans _ _ _
        (destructExtends_trans _ _ _
          (destructExtends_trans _ _ _
            (destructExtends_trans _ _ _
              (destructExtends_trans _ _ _ h1.1 h2.1) h3.1) h4.1) h5.1)
        h6.1) h7.1
    have e28 := destructExtends_trans _ _ _
      (destructExtends_trans _ _ _
        (destructExtends_trans _ _ _
          (destructExtends_trans _ _ _
            (destructExtends_trans _ _ _ h2.1 h3.1) h4.1) h5.1) h6.1) h7.1
    have e38 := destructExtends_trans _ _ _
      (destructExtends_trans _ _ _
        (destructExtends_trans _ _ _
          (destructExtends_trans _ _ _ h3.1 h4.1) h5.1) h6.1) h7.1
    have e48 := destructExtends_trans _ _ _
      (destructExtends_trans _ _ _
        (destructExtends_trans _ _ _ h4.1 h5.1) h6.1) h7.1
    have e58 := destructExtends_trans _ _ _
      (destructExtends_trans _ _ _ h5.1 h6.1) h7.1
    have e68 := destructExtends_trans _ _ _ h6.1 h7.1
    constructor
    · show DestructExtends st
        (Octant.destruct true st
          (Otree.node g lvl n ds cc0 cc1 cc2 cc3 cc4 cc5 cc6 cc7))
      rw [Octant.destruct]
      simp only [if_true]
      exact e08
    · intro d hd
      show MovedToRoot
        (Octant.destruct true st
          (Otree.node g lvl n ds cc0 cc1 cc2 cc3 cc4 cc5 cc6 cc7)) d
      rw [Octant.destruct]
      simp only [if_true]
      simp only [Otree.allDrawables, List.mem_append] at hd
      rcases hd with ⟨⟨⟨⟨⟨⟨⟨hd | hd⟩ | hd⟩ | hd⟩ | hd⟩ | hd⟩ | hd⟩ | hd⟩ | hd
      · exact movedToRoot_mono _ _ _ e18
          (movedToRoot_mono _ _ _ h0.1 (hmovd d hd))
      · exact movedToRoot_mono _ _ _ e18 (h0.2 d hd)
      · exact movedToRoot_mono _ _ _ e28 (h1.2 d hd)
      · exact movedToRoot_mono _ _ _ e38 (h2.2 d hd)
      · exact movedToRoot_mono _ _ _ e48 (h3.2 d hd)
      · exact movedToRoot_mono _ _ _ e58 (h4.2 d hd)
      · exact movedToRoot_mono _ _ _ e68 (h5.2 d hd)
      · exact movedToRoot_mono _ _ _ h7.1 (h6.2 d hd)
      · exact h7.2 d hd

/-- C10: whenever an octant subtree is destroyed while the octree is still
alive (its root back-reference non-null), every drawable contained anywhere
in that subtree is moved into the root octant's drawable list, its octant
back-reference is set to the root, its update flag is set and it is
appended to the pending update queue - so deleting a branch (as SetSize
does) never leaves a registered drawable without an owning octant, and its
re-placement at the next Update is scheduled. -/
theorem C10_destructor_moves_to_root (st : OctreeSt) (t : Otree)
    (hroot : st.tree.isNull = false) (d : DrawId) (hd : d ∈ t.allDrawables) :
    ((Octant.destruct true st t).draw d).octant_ =
        some { root := st.myId, path := [] } ∧
    ((Octant.destruct true st t).draw d).updateQueued_ = true ∧
    d ∈ (Octant.destruct true st t).tree.drawablesOf ∧
    d ∈ (Octant.destruct true st t).drawableUpdates_ := by
  obtain ⟨hext, hmov⟩ := destruct_effects t st hroot
  obtain ⟨ho, hu, hin, hp⟩ := hmov d hd
  exact ⟨by rw [ho, hext.1], hu, hin, hp⟩

/-- C10 witness: destroying a one-node branch that contains drawable 7 moves
it to the root of a live octree. -/
theorem C10_destructor_moves_to_root_witness :
    7 ∈ (Octant.destruct true
        { myId := 0,
          tree := Otree.freshOctant
            { min_ := { x_ := 0, y_ := 0, z_ := 0 },
              max_ := { x_ := 4, y_ := 4, z_ := 4 } } 0,
          numLevels_ := 8,
          draw := fun _ =>
            { occludee_ := true,
              worldBoundingBox_ :=
                { min_ := { x_ := 1, y_ := 1, z_ := 1 },
                  max_ := { x_ := 2, y_ := 2, z_ := 2 } },
              octant_ := some { root := 0, path := [0] },
              updateQueued_ := false },
          drawableUpdates_ := [] }
        (Otree.node
          (Octant.Initialize
            { min_ := { x_ := 0, y_ := 0, z_ := 0 },
              max_ := { x_ := 2, y_ := 2, z_ := 2 } })
          1 1 [7] .null .null .null .null .null .null .null .null)).tree.drawablesOf := by
  refine (C10_destructor_moves_to_root _ _ ?_ 7 ?_).2.2.1
  · rfl
  · simp [Otree.allDrawables]

/-- Helper: moved-to-root facts survive nulling a child slot. -/
theorem movedToRoot_setChild (st : OctreeSt) (i : ℕ) (c : Otree) (d : DrawId)
    (h : MovedToRoot st d) :
    MovedToRoot { st with tree := st.tree.setChildAt i c } d := by
  obtain ⟨h1, h2, h3, h4⟩ := h
  exact ⟨h1, h2, by rw [Otree.drawablesOf_setChildAt]; exact h3, h4⟩

/-- Helper: the collected effects of DeleteChild on a root child slot. -/
structure DCFacts (st : OctreeSt) (i : ℕ) (st' : OctreeSt) : Prop where
  myId_eq : st'.myId = st.myId
  numLevels_eq : st'.numLevels_ = st.numLevels_
  isNull_eq : st'.tree.isNull = st.tree.isNull
  geom_eq : st'.tree.geomOf = st.tree.geomOf
  level_eq : st'.tree.levelOf = st.tree.levelOf
  child_del : st'.tree.childAt i = Otree.null
  child_keep : ∀ j, j ≠ i → st'.tree.childAt j = st.tree.childAt j
  drawables_app : ∃ l, st'.tree.drawablesOf = st.tree.drawablesOf ++ l
  pending_app : ∃ l, st'.drawableUpdates_ = st.drawableUpdates_ ++ l
  moved_new : ∀ d, d ∈ (st.tree.childAt i).allDrawables → MovedToRoot st' d
  moved_keep : ∀ d, MovedToRoot st d → MovedToRoot st' d

/-- Helper: DeleteChild establishes those effects. -/
theorem deleteChild_facts (st : OctreeSt) (i : ℕ) (hi : i < 8)
    (hroot : st.tree.isNull = false) :
    DCFacts st i (Octant.DeleteChild st i) := by
  obtain ⟨hext, hmov⟩ := destruct_effects (st.tree.childAt i) st hroot
  obtain ⟨hmy, hnl, hpend, hdraws, hnull, hchild, hgeom, hlvl, hnum, hrec⟩ :=
    hext
  have hnull1 : (Octant.destruct true st (st.tree.childAt i)).tree.isNull
      = false := by rw [hnull, hroot]
  refine ⟨hmy, hnl, ?_, ?_, ?_, ?_, ?_, ?_, hpend, ?_, ?_⟩
  · show ((Octant.destruct true st
        (st.tree.childAt i)).tree.setChildAt i Otree.null).isNull = _
    rw [Otree.isNull_setChildAt, hnull]
  · show ((Octant.destruct true st
        (st.tree.childAt i)).tree.setChildAt i Otree.null).geomOf = _
    rw [Otree.geomOf_setChildAt, hgeom]
  · show ((Octant.destruct true st
        (st.tree.childAt i)).tree.setChildAt i Otree.null).levelOf = _
    rw [Otree.levelOf_setChildAt, hlvl]
  · show ((Octant.destruct true st
        (st.tree.childAt i)).tree.setChildAt i Otree.null).childAt i = _
    rw [Otree.childAt_setChildAt_self _ _ _ hi hnull1]
  · intro j hj
    show ((Octant.destruct true st
        (st.tree.childAt i)).tree.setChildAt i Otree.null).childAt j = _
    rw [Otree.childAt_setChildAt_ne _ _ _ _ (fun e => hj e.symm), hchild]
  · obtain ⟨l, hl⟩ := hdraws
    refine ⟨l, ?_⟩
    show ((Octant.destruct true st
        (st.tree.childAt i)).tree.setChildAt i Otree.null).drawablesOf = _
    rw [Otree.drawablesOf_setChildAt, hl]
  · intro d hd
    exact movedToRoot_setChild _ _ _ _ (hmov d hd)
  · intro d hd
    exact movedToRoot_setChild _ _ _ _
      (movedToRoot_mono _ _ _
        ⟨hmy, hnl, hpend, hdraws, hnull, hchild, hgeom, hlvl, hnum, hrec⟩ hd)

/-- Helper: effects of the SetSize reinitialization on the root node. -/
theorem Otree.initRoot_facts (t : Otree) (box : BoundingBox)
    (ht : t.isNull = false) :
    (t.initRoot box).geomOf = Octant.Initialize box ∧
    (t.initRoot box).drawablesOf = t.drawablesOf ∧
    (t.initRoot box).numDrawablesOf = t.drawablesOf.length ∧
    (∀ i, (t.initRoot box).childAt i = t.childAt i) ∧
    (t.initRoot box).isNull = false := by
  cases t
  · simp [Otree.isNull] at ht
  · exact ⟨rfl, rfl, rfl, fun i => rfl, rfl⟩

/-- C9 (amended): SetSize deletes all eight children of the root and
reinitializes the root's geometry from the new bounds and clamped level
count, and it does not re-place the previously contained objects into
proper octants - they are all left in the root octant's own list.  However,
contrary to the last part of the claim, no caller action is required: every
moved drawable has its octant reference set to the root, its update flag
set, and sits in the pending queue, so the next Update re-places it
automatically. -/
theorem C9_setSize (st : OctreeSt) (box : BoundingBox) (n : ℕ)
    (hroot : st.tree.isNull = false) :
    (∀ i, i < 8 → (Octree.SetSize st box n).tree.childAt i = Otree.null) ∧
    (Octree.SetSize st box n).tree.geomOf = Octant.Initialize box ∧
    (Octree.SetSize st box n).numLevels_ = max n 1 ∧
    (Octree.SetSize st box n).tree.numDrawablesOf =
      ((Octree.SetSize st box n).tree.drawablesOf).length ∧
    (∀ i d, i < 8 → d ∈ (st.tree.childAt i).allDrawables →
        ((Octree.SetSize st box n).draw d).octant_ =
            some { root := st.myId, path := [] } ∧
        d ∈ (Octree.SetSize st box n).tree.drawablesOf ∧
        ((Octree.SetSize st box n).draw d).updateQueued_ = true ∧
        d ∈ (Octree.SetSize st box n).drawableUpdates_) := by
  have f1 := deleteChild_facts st 0 (by norm_num) hroot
  set s1 := Octant.DeleteChild st 0 with hs1
  have hr1 : s1.tree.isNull = false := by rw [f1.isNull_eq, hroot]
  have f2 := deleteChild_facts s1 1 (by norm_num) hr1
  set s2 := Octant.DeleteChild s1 1 with hs2
  have hr2 : s2.tree.isNull = false := by rw [f2.isNull_eq, hr1]
  have f3 := deleteChild_facts s2 2 (by norm_num) hr2
  set s3 := Octant.DeleteChild s2 2 with hs3
  have hr3 : s3.tree.isNull = false := by rw [f3.isNull_eq, hr2]
  have f4 := deleteChild_facts s3 3 (by norm_num) hr3
  set s4 := Octant.DeleteChild s3 3 with hs4
  have hr4 : s4.tree.isNull = false := by rw [f4.isNull_eq, hr3]
  have f5 := deleteChild_facts s4 4 (by norm_num) hr4
  set s5 := Octant.DeleteChild s4 4 with hs5
  have hr5 : s5.tree.isNull = false := by rw [f5.isNull_eq, hr4]
  have f6 := deleteChild_facts s5 5 (by norm_num) hr5
  set s6 := Octant.DeleteChild s5 5 with hs6
  have hr6 : s6.tree.isNull = false := by rw [f6.isNull_eq, hr5]
  have f7 := deleteChild_facts s6 6 (by norm_num) hr6
  set s7 := Octant.DeleteChild s6 6 with hs7
  have hr7 : s7.tree.isNull = false := by rw [f7.isNull_eq, hr6]
  have f8 := deleteChild_facts s7 7 (by norm_num) hr7
  set s8 := Octant.DeleteChild s7 7 with hs8
  have hr8 : s8.tree.isNull = false := by rw [f8.isNull_eq, hr7]
  have hmy8 : s8.myId = st.myId := by
    rw [f8.myId_eq, f7.myId_eq, f6.myId_eq, f5.myId_eq, f4.myId_eq,
      f3.myId_eq, f2.myId_eq, f1.myId_eq]
  have fi := Otree.initRoot_facts s8.tree box hr8
  have hset : Octree.SetSize st box n =
      { s8 with tree := s8.tree.initRoot box, numLevels_ := max n 1 } := by
    simp only [Octree.SetSize]
  refine ⟨?_, ?_, ?_, ?_, ?_⟩
  · intro i hi
    rw [hset]
    show (s8.tree.initRoot box).childAt i = Otree.null
    rw [fi.2.2.2.1 i]
    interval_cases i
    · rw [f8.child_keep 0 (by norm_num), f7.child_keep 0 (by norm_num),
        f6.child_keep 0 (by norm_num), f5.child_keep 0 (by norm_num),
        f4.child_keep 0 (by norm_num), f3.child_keep 0 (by norm_num),
        f2.child_keep 0 (by norm_num)]
      exact f1.child_del
    · rw [f8.child_keep 1 (by norm_num), f7.child_keep 1 (by norm_num),
        f6.child_keep 1 (by norm_num), f5.child_keep 1 (by norm_num),
        f4.child_keep 1 (by norm_num), f3.child_keep 1 (by norm_num)]
      exact f2.child_del
    · rw [f8.child_keep 2 (by norm_num), f7.child_keep 2 (by norm_num),
        f6.child_keep 2 (by norm_num), f5.child_keep 2 (by norm_num),
        f4.child_keep 2 (by norm_num)]
      exact f3.child_del
    · rw [f8.child_keep 3 (by norm_num), f7.child_keep 3 (by norm_num),
        f6.child_keep 3 (by norm_num), f5.child_keep 3 (by norm_num)]
      exact f4.child_del
    · rw [f8.child_keep 4 (by norm_num), f7.child_keep 4 (by norm_num),
        f6.child_keep 4 (by norm_num)]
      exact f5.child_del
    · rw [f8.child_keep 5 (by norm_num), f7.child_keep 5 (by norm_num)]
      exact f6.child_del
    · rw [f8.child_keep 6 (by norm_num)]
      exact f7.child_del
    · exact f8.child_del
  · rw [hset]
    exact fi.1
  · rw [hset]
  · rw [hset]
    show (s8.tree.initRoot box).numDrawablesOf =
      ((s8.tree.initRoot box).drawablesOf).length
    rw [fi.2.2.1, fi.2.1]
  · intro i d hi hd
    have key : MovedToRoot s8 d := by
      interval_cases i
      · exact f8.moved_keep d (f7.moved_keep d (f6.moved_keep d
          (f5.moved_keep d (f4.moved_keep d (f3.moved_keep d
            (f2.moved_keep d (f1.moved_new d hd)))))))
      · rw [← f1.child_keep 1 (by norm_num)] at hd
        exact f8.moved_keep d (f7.moved_keep d (f6.moved_keep d
          (f5.moved_keep d (f4.moved_keep d (f3.moved_keep d
            (f2.moved_new d hd))))))
      · rw [← f1.child_keep 2 (by norm_num),
          ← f2.child_keep 2 (by norm_num)] at hd
        exact f8.moved_keep d (f7.moved_keep d (f6.moved_keep d
          (f5.moved_keep d (f4.moved_keep d (f3.moved_new d hd)))))
      · rw [← f1.child_keep 3 (by norm_num), ← f2.child_keep 3 (by norm_num),
          ← f3.child_keep 3 (by norm_num)] at hd
        exact f8.moved_keep d (f7.moved_keep d (f6.moved_keep d
          (f5.moved_keep d (f4.moved_new d hd))))
      · rw [← f1.child_keep 4 (by norm_num), ← f2.child_keep 4 (by norm_num),
          ← f3.child_keep 4 (by norm_num),
          ← f4.child_keep 4 (by norm_num)] at hd
        exact f8.moved_keep d (f7.moved_keep d (f6.moved_keep d
          (f5.moved_new d hd)))
      · rw [← f1.child_keep 5 (by norm_num), ← f2.child_keep 5 (by norm_num),
          ← f3.child_keep 5 (by norm_num), ← f4.child_keep 5 (by norm_num),
          ← f5.child_keep 5 (by norm_num)] at hd
        exact f8.moved_keep d (f7.moved_keep d (f6.moved_new d hd))
      · rw [← f1.child_keep 6 (by norm_num), ← f2.child_keep 6 (by norm_num),
          ← f3.child_keep 6 (by norm_num), ← f4.child_keep 6 (by norm_num),
          ← f5.child_keep 6 (by norm_num),
          ← f6.child_keep 6 (by norm_num)] at hd
        exact f8.moved_keep d (f7.moved_new d hd)
      · rw [← f1.child_keep 7 (by norm_num), ← f2.child_keep 7 (by norm_num),
          ← f3.child_keep 7 (by norm_num), ← f4.child_keep 7 (by norm_num),
          ← f5.child_keep 7 (by norm_num), ← f6.child_keep 7 (by norm_num),
          ← f7.child_keep 7 (by norm_num)] at hd
        exact f8.moved_new d hd
    obtain ⟨h1, h2, h3, h4⟩ := key
    rw [hmy8] at h1
    rw [hset]
    refine ⟨h1, ?_, h2, h4⟩
    show d ∈ (s8.tree.initRoot box).drawablesOf
    rw [fi.2.1]
    exact h3

/-- C9 counterexample: after SetSize on an octree whose child 0 contained
drawable 5 with a clean update flag and an empty pending queue, drawable 5
has its update flag set and sits in the pending queue - the caller does NOT
need to re-trigger registration or dirtying, contrary to the final part of
the claim. -/
theorem C9_counterexample :
    ((Octree.SetSize
        { myId := 0,
          tree := Otree.node
            (Octant.Initialize
              { min_ := { x_ := 0, y_ := 0, z_ := 0 },
                max_ := { x_ := 4, y_ := 4, z_ := 4 } })
            0 1 []
            (Otree.node
              (Octant.Initialize
                { min_ := { x_ := 0, y_ := 0, z_ := 0 },
                  max_ := { x_ := 2, y_ := 2, z_ := 2 } })
              1 1 [5] .null .null .null .null .null .null .null .null)
            .null .null .null .null .null .null .null,
          numLevels_ := 8,
          draw := fun _ =>
            { occludee_ := true,
              worldBoundingBox_ :=
                { min_ := { x_ := 1, y_ := 1, z_ := 1 },
                  max_ := { x_ := 3/2, y_ := 3/2, z_ := 3/2 } },
              octant_ := some { root := 0, path := [0] },
              updateQueued_ := false },
          drawableUpdates_ := [] }
        { min_ := { x_ := 0, y_ := 0, z_ := 0 },
          max_ := { x_ := 8, y_ := 8, z_ := 8 } } 8).draw 5).updateQueued_
        = true ∧
    5 ∈ (Octree.SetSize
        { myId := 0,
          tree := Otree.node
            (Octant.Initialize
              { min_ := { x_ := 0, y_ := 0, z_ := 0 },
                max_ := { x_ := 4, y_ := 4, z_ := 4 } })
            0 1 []
            (Otree.node
              (Octant.Initialize
                { min_ := { x_ := 0, y_ := 0, z_ := 0 },
                  max_ := { x_ := 2, y_ := 2, z_ := 2 } })
              1 1 [5] .null .null .null .null .null .null .null .null)
            .null .null .null .null .null .null .null,
          numLevels_ := 8,
          draw := fun _ =>
            { occludee_ := true,
              worldBoundingBox_ :=
                { min_ := { x_ := 1, y_ := 1, z_ := 1 },
                  max_ := { x_ := 3/2, y_ := 3/2, z_ := 3/2 } },
              octant_ := some { root := 0, path := [0] },
              updateQueued_ := false },
          drawableUpdates_ := [] }
        { min_ := { x_ := 0, y_ := 0, z_ := 0 },
          max_ := { x_ := 8, y_ := 8, z_ := 8 } } 8).drawableUpdates_ := by
  norm_num [Octree.SetSize, Octant.DeleteChild, Octant.destruct,
    Octant.moveDrawableToRoot, Octree.QueueUpdate, OctreeSt.setDraw,
    Otree.pushRootDrawable, Otree.childAt, Otree.setChildAt, Otree.initRoot,
    Function.update_apply]

/-- C9 witness: the amended theorem applied to the same concrete octree;
after the resize the root geometry is reinitialized from the new box. -/
theorem C9_setSize_witness :
    (Octree.SetSize
        { myId := 0,
          tree := Otree.node
            (Octant.Initialize
              { min_ := { x_ := 0, y_ := 0, z_ := 0 },
                max_ := { x_ := 4, y_ := 4, z_ := 4 } })
            0 1 []
            (Otree.node
              (Octant.Initialize
                { min_ := { x_ := 0, y_ := 0, z_ := 0 },
                  max_ := { x_ := 2, y_ := 2, z_ := 2 } })
              1 1 [5] .null .null .null .null .null .null .null .null)
            .null .null .null .null .null .null .null,
          numLevels_ := 8,
          draw := fun _ =>
            { occludee_ := true,
              worldBoundingBox_ :=
                { min_ := { x_ := 1, y_ := 1, z_ := 1 },
                  max_ := { x_ := 3/2, y_ := 3/2, z_ := 3/2 } },
              octant_ := some { root := 0, path := [0] },
              updateQueued_ := false },
          drawableUpdates_ := [] }
        { min_ := { x_ := 0, y_ := 0, z_ := 0 },
          max_ := { x_ := 8, y_ := 8, z_ := 8 } } 8).tree.geomOf =
      Octant.Initialize
        { min_ := { x_ := 0, y_ := 0, z_ := 0 },
          max_ := { x_ := 8, y_ := 8, z_ := 8 } } := by
  refine (C9_setSize _ _ 8 ?_).2.1
  rfl

/-- A single ray query hit: the hit distance and the drawable that produced
it (RayQueryResult's distance_ and drawable_ fields; position, normal and
sub-object do not matter to the claims and ride along with drawable_). -/
structure RayQueryResult where
  distance_ : ℚ
  drawable_ : ℕ
  deriving DecidableEq

/-- Modelled from the spec: Drawable.h and the concrete per-object geometry
tests are not among the provided sources (spec sections 2 and 6: an indexed
object exposes draw flags, a view mask, a world bounding box and a
ray-vs-object test).  hits is the list of results that ProcessRayQuery
appends for the query under study, in appending order. -/
structure RayDrawable where
  drawableFlags_ : ℕ
  viewMask_ : ℕ
  worldBoundingBox_ : BoundingBox
  hits : List RayQueryResult
  deriving DecidableEq

/-- Modelled from the spec: RAY_TRIANGLE of the RayQueryLevel enum
(object-level, triangle precision; OctreeQuery.h is not among the provided
sources).  The code only compares level_ < RAY_TRIANGLE. -/
def RAY_TRIANGLE : ℕ := 3

/-- RAYCASTS_PER_WORK_ITEM (source line 47). -/
def RAYCASTS_PER_WORK_ITEM : ℕ := 4

/-- Modelled from the spec: the ray query record (OctreeQuery.h and Ray.cpp
are not among the provided sources): maximum distance, drawable flags, view
mask, precision level, and the ray itself abstracted into the exact
ray-versus-box hit distance oracle rayBoxDist (Ray::HitDistance). -/
structure RayOctreeQuery where
  maxDistance_ : ℚ
  drawableFlags_ : ℕ
  viewMask_ : ℕ
  level_ : ℕ
  rayBoxDist : BoundingBox → ℚ

/-- The drawable filter of the ray traversals (source lines 292 and 319):
both the drawable-flag and the view-mask bitwise ANDs are nonzero. -/
def rayFilter (q : RayOctreeQuery) (store : ℕ → RayDrawable) (i : ℕ) : Bool :=
  decide ((store i).drawableFlags_ &&& q.drawableFlags_ ≠ 0) &&
  decide ((store i).viewMask_ &&& q.viewMask_ ≠ 0)

/-- Octant::GetDrawablesInternal for ray queries (source lines 277-302):
prune the subtree when the ray-box distance to the culling box reaches the
query's max distance; otherwise let every filtered drawable append its hits
and recurse into the children in index order. -/
def Octant.GetDrawablesInternalRay (q : RayOctreeQuery)
    (store : ℕ → RayDrawable) : Otree → List RayQueryResult
  | .null => []
  | .node g _ _ ds c0 c1 c2 c3 c4 c5 c6 c7 =>
    if q.maxDistance_ ≤ q.rayBoxDist g.cullingBox_ then []
    else
      (ds.filter (rayFilter q store)).flatMap (fun i => (store i).hits) ++
      Octant.GetDrawablesInternalRay q store c0 ++
      Octant.GetDrawablesInternalRay q store c1 ++
      Octant.GetDrawablesInternalRay q store c2 ++
      Octant.GetDrawablesInternalRay q store c3 ++
      Octant.GetDrawablesInternalRay q store c4 ++
      Octant.GetDrawablesInternalRay q store c5 ++
      Octant.GetDrawablesInternalRay q store c6 ++
      Octant.GetDrawablesInternalRay q store c7

/-- Octant::GetDrawablesOnlyInternal (source lines 304-329): the same
traversal and filter, collecting the candidate drawables instead of
testing them. -/
def Octant.GetDrawablesOnlyInternal (q : RayOctreeQuery)
    (store : ℕ → RayDrawable) : Otree → List ℕ
  | .null => []
  | .node g _ _ ds c0 c1 c2 c3 c4 c5 c6 c7 =>
    if q.maxDistance_ ≤ q.rayBoxDist g.cullingBox_ then []
    else
      ds.filter (rayFilter q store) ++
      Octant.GetDrawablesOnlyInternal q store c0 ++
      Octant.GetDrawablesOnlyInternal q store c1 ++
      Octant.GetDrawablesOnlyInternal q store c2 ++
      Octant.GetDrawablesOnlyInternal q store c3 ++
      Octant.GetDrawablesOnlyInternal q store c4 ++
      Octant.GetDrawablesOnlyInternal q store c5 ++
      Octant.GetDrawablesOnlyInternal q store c6 ++
      Octant.GetDrawablesOnlyInternal q store c7

/-- Stable insertion into a list ordered by a rational key. -/
def sortedInsert {α : Type} (key : α → ℚ) (a : α) : List α → List α
  | [] => [a]
  | b :: l => if key a ≤ key b then a :: b :: l else b :: sortedInsert key a l

/-- Deterministic stable sort by a rational key: a refinement of std::sort
with a strict-weak-order comparator (CompareRayQueryResults, source lines
82-85, and CompareDrawables), whose contract is only that the output is a
permutation of the input ordered by the key. -/
def sortByKey {α : Type} (key : α → ℚ) : List α → List α
  | [] => []
  | a :: l => sortedInsert key a (sortByKey key l)

/-- The final sort of the ray query results by hit distance (source lines
566 and 604). -/
def sortResults (l : List RayQueryResult) : List RayQueryResult :=
  sortByKey (fun r => r.distance_) l

theorem sortedInsert_perm {α : Type} (key : α → ℚ) (a : α) (l : List α) :
    (sortedInsert key a l).Perm (a :: l) := by
  induction l with
  | nil => simp [sortedInsert]
  | cons b l ih =>
    by_cases h : key a ≤ key b
    · simp [sortedInsert, h]
    · simp only [sortedInsert, if_neg h]
      exact (ih.cons b).trans (List.Perm.swap a b l)

theorem sortByKey_perm {α : Type} (key : α → ℚ) (l : List α) :
    (sortByKey key l).Perm l := by
  induction l with
  | nil => simp [sortByKey]
  | cons a l ih =>
    exact (sortedInsert_perm key a (sortByKey key l)).trans (ih.cons a)

theorem sortedInsert_pairwise {α : Type} (key : α → ℚ) (a : α) (l : List α)
    (h : l.Pairwise (fun x y => key x ≤ key y)) :
    (sortedInsert key a l).Pairwise (fun x y => key x ≤ key y) := by
  induction l with
  | nil => simp [sortedInsert]
  | cons b l ih =>
    rcases List.pairwise_cons.mp h with ⟨hb, hl⟩
    by_cases hab : key a ≤ key b
    · simp only [sortedInsert, if_pos hab]
      refine List.pairwise_cons.mpr ⟨?_, h⟩
      intro x hx
      rcases List.mem_cons.mp hx with hx | hx
      · rw [hx]
        exact hab
      · exact hab.trans (hb x hx)
    · simp only [sortedInsert, if_neg hab]
      refine List.pairwise_cons.mpr ⟨?_, ih hl⟩
      intro x hx
      rcases List.mem_cons.mp ((sortedInsert_perm key a l).mem_iff.mp hx)
        with hx | hx
      · rw [hx]
        exact le_of_lt (lt_of_not_le hab)
      · exact hb x hx


theorem sortByKey_pairwise {α : Type} (key : α → ℚ) (l : List α) :
    (sortByKey key l).Pairwise (fun x y => key x ≤ key y) := by
  induction l with
  | nil => simp [sortByKey]
  | cons a l ih => exact sortedInsert_pairwise key a _ ih

/-- Helper: the head of a key-sorted list carries the minimum key. -/
theorem sorted_head_min {α : Type} (key : α → ℚ) (l : List α) (a : α)
    (hl : l.Pairwise (fun x y => key x ≤ key y)) (hhead : l.head? = some a) :
    ∀ x ∈ l, key a ≤ key x := by
  cases l with
  | nil => cases hhead
  | cons b l =>
    injection hhead with hb
    subst hb
    intro x hx
    rcases List.mem_cons.mp hx with hx | hx
    · rw [hx]
    · exact (List.pairwise_cons.mp hl).1 x hx

/-- The work-item chunking of the threaded ray cast (source lines 535-552):
consecutive slices of RAYCASTS_PER_WORK_ITEM candidates, the last possibly
shorter.  The fuel argument (instantiated with the list length) only makes
the recursion structural. -/
def raycastChunksGo : ℕ → List ℕ → List (List ℕ)
  | 0, _ => []
  | _, [] => []
  | fuel + 1, l =>
      l.take RAYCASTS_PER_WORK_ITEM ::
        raycastChunksGo fuel (l.drop RAYCASTS_PER_WORK_ITEM)

/-- The chunk list of a candidate list. -/
def raycastChunks (l : List ℕ) : List (List ℕ) := raycastChunksGo l.length l

/-- The hits a chunk contributes, in order (RaycastDrawablesWork, source
lines 51-65: each drawable of the slice appends its hits to the executing
thread's buffer). -/
def processChunk (store : ℕ → RayDrawable) (c : List ℕ) :
    List RayQueryResult :=
  c.flatMap fun i => (store i).hits

/-- Per-thread result buffers of the threaded ray cast (source lines
525-552): work item k is executed by thread sigma k and appends its hits to
buffer sigma k.  Work items are dequeued in submission order, so every
buffer receives its chunks in global chunk order; sigma models the
scheduler's choice of executing thread per work item. -/
def raycastDistribute (store : ℕ → RayDrawable) (σ : ℕ → ℕ) :
    List (List ℕ) → ℕ → List (List RayQueryResult) →
      List (List RayQueryResult)
  | [], _, bufs => bufs
  | c :: cs, k, bufs =>
      raycastDistribute store σ cs (k + 1)
        (bufs.set (σ k) (bufs.getD (σ k) [] ++ processChunk store c))

/-- Merged result of the threaded path: the per-thread buffers (indexed
0..numThreads, worker threads plus the main thread, pre-sized by the Octree
constructor, source line 338) concatenated in thread-index order (source
lines 554-557). -/
def raycastThreaded (numThreads : ℕ) (σ : ℕ → ℕ) (store : ℕ → RayDrawable)
    (cands : List ℕ) : List RayQueryResult :=
  (raycastDistribute store σ (raycastChunks cands) 0
      (List.replicate (numThreads + 1) [])).flatten

/-- Octree::Raycast (source lines 511-567): with no worker threads or below
triangle-level precision, the plain recursive traversal runs; otherwise
candidates are collected first and, when at least
RAYCASTS_PER_WORK_ITEM * 2 of them exist, processed in chunked work items
on the threads given by the schedule sigma and merged, else processed
inline; the collected results are finally sorted by hit distance. -/
def Octree.Raycast (numThreads : ℕ) (σ : ℕ → ℕ) (q : RayOctreeQuery)
    (store : ℕ → RayDrawable) (t : Otree) : List RayQueryResult :=
  sortResults
    (if numThreads = 0 ∨ q.level_ < RAY_TRIANGLE then
      Octant.GetDrawablesInternalRay q store t
    else
      let cands := Octant.GetDrawablesOnlyInternal q store t
      if RAYCASTS_PER_WORK_ITEM * 2 ≤ cands.length then
        raycastThreaded numThreads σ store cands
      else
        cands.flatMap fun i => (store i).hits)

/-- Minimum of an optional bound (none plays M_INFINITY) and a value. -/
def minOpt : Option ℚ → ℚ → ℚ
  | none, x => x
  | some c, x => min c x

/-- One closest-hit bound step: after a candidate is processed, the bound
becomes the minimum of the old bound and the distance of the LAST hit the
candidate appended (query.result_.back(), source line 596); a candidate
without hits leaves the bound alone. -/
def walkBoundStep (store : ℕ → RayDrawable) (c : Option ℚ) (i : ℕ) :
    Option ℚ :=
  if (store i).hits.isEmpty then c
  else
    some (minOpt c
      (((store i).hits.getLast?.getD
          { distance_ := 0, drawable_ := 0 }).distance_))

/-- The closest-hit bound after processing a list of candidates in order. -/
def walkBound (store : ℕ → RayDrawable) : List ℕ → Option ℚ → Option ℚ
  | [], c => c
  | i :: rest, c => walkBound store rest (walkBoundStep store c i)

/-- Stage-2 walk of Octree::RaycastSingle (source lines 586-600): process
candidates in order while the candidate's box distance stays strictly below
both the closest confirmed bound (closestHit, none = M_INFINITY) and the
query's max distance, breaking at the first candidate that fails; returns
the accumulated results and the list of candidates actually processed. -/
def raycastSingleWalk (q : RayOctreeQuery) (store : ℕ → RayDrawable) :
    List ℕ → Option ℚ → List RayQueryResult →
      List RayQueryResult × List ℕ
  | [], _, acc => (acc, [])
  | i :: rest, closest, acc =>
    if q.rayBoxDist (store i).worldBoundingBox_ <
        minOpt closest q.maxDistance_ then
      let rp := raycastSingleWalk q store rest
        (walkBoundStep store closest i) (acc ++ (store i).hits)
      (rp.1, i :: rp.2)
    else (acc, [])

/-- Octree::RaycastSingle (source lines 569-607): collect candidates with
the shared traversal, sort them ascending by ray-box distance to their
world bounding boxes (SetSortValue and CompareDrawables - Drawable.h is not
among the provided sources, stage 1 of spec section 4.3), run the
early-exit walk, and finally, if more than one result accumulated, sort by
hit distance and resize down to a single result. -/
def Octree.RaycastSingle (q : RayOctreeQuery) (store : ℕ → RayDrawable)
    (t : Otree) : List RayQueryResult :=
  let cands := sortByKey (fun i => q.rayBoxDist (store i).worldBoundingBox_)
    (Octant.GetDrawablesOnlyInternal q store t)
  let result := (raycastSingleWalk q store cands none []).1
  if 1 < result.length then (sortResults result).take 1 else result

/-- Helper: the ray traversal that appends hits equals the candidate
traversal followed by per-candidate hit expansion. -/
theorem getDrawablesInternalRay_eq_flatMap (q : RayOctreeQuery)
    (store : ℕ → RayDrawable) (t : Otree) :
    Octant.GetDrawablesInternalRay q store t =
      (Octant.GetDrawablesOnlyInternal q store t).flatMap
        fun i => (store i).hits := by
  induction t with
  | null => rfl
  | node g lvl n ds c0 c1 c2 c3 c4 c5 c6 c7 ih0 ih1 ih2 ih3 ih4 ih5 ih6 ih7 =>
    by_cases h : q.maxDistance_ ≤ q.rayBoxDist g.cullingBox_
    · simp [Octant.GetDrawablesInternalRay, Octant.GetDrawablesOnlyInternal, h]
    · simp only [Octant.GetDrawablesInternalRay,
        Octant.GetDrawablesOnlyInternal, if_neg h, List.flatMap_append,
        ih0, ih1, ih2, ih3, ih4, ih5, ih6, ih7]

/-- C5: every call to Raycast returns its result list sorted in
non-decreasing order of hit distance - for every thread count, schedule,
ray oracle, filter masks, scene content and precision level, i.e. on both
the threaded and the inline execution paths. -/
theorem C5_raycast_sorted (numThreads : ℕ) (σ : ℕ → ℕ) (q : RayOctreeQuery)
    (store : ℕ → RayDrawable) (t : Otree) :
    (Octree.Raycast numThreads σ q store t).Pairwise
      (fun a b => a.distance_ ≤ b.distance_) := by
  unfold Octree.Raycast sortResults
  exact sortByKey_pairwise _ _

/-- Helper: concatenating the chunks gives back the candidate list. -/
theorem raycastChunksGo_flatMap (fuel : ℕ) (l : List ℕ)
    (h : l.length ≤ fuel) :
    (raycastChunksGo fuel l).flatMap id = l := by
  induction fuel generalizing l with
  | zero =>
      have hl : l = [] := List.length_eq_zero.mp (Nat.le_zero.mp h)
      subst hl
      rfl
  | succ fuel ih =>
    cases l with
    | nil => rfl
    | cons a l' =>
      simp only [raycastChunksGo, List.flatMap_cons, id_eq]
      rw [ih _ (by
        simp only [List.length_drop, RAYCASTS_PER_WORK_ITEM,
          List.length_cons] at h ⊢
        omega)]
      exact List.take_append_drop _ _

theorem raycastChunks_flatMap (l : List ℕ) :
    (raycastChunks l).flatMap id = l :=
  raycastChunksGo_flatMap l.length l le_rfl

/-- Helper: appending to one buffer permutes the flattened buffers by
moving the appended block to the end. -/
theorem flatten_set_append {α : Type} (bufs : List (List α)) (j : ℕ)
    (hj : j < bufs.length) (c : List α) :
    ((bufs.set j (bufs.getD j [] ++ c)).flatten).Perm (bufs.flatten ++ c) := by
  induction bufs generalizing j with
  | nil => simp at hj
  | cons b bufs ih =>
    cases j with
    | zero =>
        simp only [List.set, List.getD_cons_zero, List.flatten_cons,
          List.append_assoc]
        exact List.Perm.append_left b List.perm_append_comm
    | succ j =>
        simp only [List.set, List.getD_cons_succ, List.flatten_cons,
          List.append_assoc]
        refine List.Perm.append_left b ?_
        have hj' : j < bufs.length := by
          simpa using Nat.lt_of_succ_lt_succ hj
        exact ih j hj'

/-- Helper: the merged buffers after distributing the chunks are a
permutation of the old buffer contents followed by the chunks' hits in
chunk order, provided every chunk is scheduled on an existing thread. -/
theorem raycastDistribute_perm (store : ℕ → RayDrawable) (σ : ℕ → ℕ)
    (cs : List (List ℕ)) (k : ℕ) (bufs : List (List RayQueryResult))
    (hσ : ∀ m, m < cs.length → σ (k + m) < bufs.length) :
    ((raycastDistribute store σ cs k bufs).flatten).Perm
      (bufs.flatten ++ cs.flatMap (processChunk store)) := by
  induction cs generalizing k bufs with
  | nil => simp [raycastDistribute]
  | cons c cs ih =>
    have h0 : σ k < bufs.length := by
      have := hσ 0 (by simp)
      simpa using this
    have hrec := ih (k + 1)
      (bufs.set (σ k) (bufs.getD (σ k) [] ++ processChunk store c))
      (fun m hm => by
        rw [List.length_set]
        have := hσ (m + 1) (by simpa using Nat.succ_lt_succ hm)
        have harith : k + 1 + m = k + (m + 1) := by omega
        rw [harith]
        exact this)
    have hstep := flatten_set_append bufs (σ k) h0 (processChunk store c)
    simp only [raycastDistribute]
    refine hrec.trans ?_
    simp only [List.flatMap_cons]
    refine (hstep.append_right _).trans ?_
    rw [List.append_assoc]

/-- Helper: flattening replicated empty buffers gives nothing. -/
theorem flatten_replicate_nil {α : Type} (n : ℕ) :
    (List.replicate n ([] : List α)).flatten = [] := by
  induction n with
  | zero => rfl
  | succ n ih => simpa [List.replicate, List.flatten_cons] using ih

/-- Helper: the merged threaded result is a permutation of the inline
per-candidate expansion. -/
theorem raycastThreaded_perm (numThreads : ℕ) (σ : ℕ → ℕ)
    (store : ℕ → RayDrawable) (cands : List ℕ)
    (hσ : ∀ m, m < (raycastChunks cands).length → σ m ≤ numThreads) :
    (raycastThreaded numThreads σ store cands).Perm
      (cands.flatMap fun i => (store i).hits) := by
  unfold raycastThreaded
  have hperm := raycastDistribute_perm store σ (raycastChunks cands) 0
    (List.replicate (numThreads + 1) [])
    (fun m hm => by
      rw [List.length_replicate]
      simp only [Nat.zero_add]
      have := hσ m hm
      omega)
  refine hperm.trans ?_
  rw [flatten_replicate_nil]
  simp only [List.nil_append]
  have h : ((raycastChunks cands).flatMap id).flatMap (fun i => (store i).hits)
      = (raycastChunks cands).flatMap (processChunk store) :=
    List.flatMap_assoc (raycastChunks cands) id fun i => (store i).hits
  rw [← h, raycastChunks_flatMap]

/-- Helper: two permuted lists, both sorted by a key that is injective on
them (pairwise distinct keys), are equal. -/
theorem sorted_perm_distinct_eq {α : Type} (key : α → ℚ) (l1 l2 : List α)
    (hperm : l1.Perm l2)
    (hs1 : l1.Pairwise fun x y => key x ≤ key y)
    (hs2 : l2.Pairwise fun x y => key x ≤ key y)
    (hdist : l1.Pairwise fun x y => key x ≠ key y) :
    l1 = l2 := by
  induction l1 generalizing l2 with
  | nil => exact (List.perm_nil.mp hperm.symm).symm
  | cons a l1 ih =>
    cases l2 with
    | nil => exact absurd hperm.symm (by simp)
    | cons b l2 =>
      have hab : a = b := by
        by_contra hne
        have ha2 : a ∈ b :: l2 := hperm.mem_iff.mp (List.mem_cons_self a l1)
        have hb1 : b ∈ a :: l1 := hperm.symm.mem_iff.mp
          (List.mem_cons_self b l2)
        rcases List.mem_cons.mp ha2 with h | ha2
        · exact hne h
        rcases List.mem_cons.mp hb1 with h | hb1
        · exact hne h.symm
        have h1 : key a ≤ key b := (List.pairwise_cons.mp hs1).1 b hb1
        have h2 : key b ≤ key a := (List.pairwise_cons.mp hs2).1 a ha2
        have heq : key a = key b := le_antisymm h1 h2
        exact (List.pairwise_cons.mp hdist).1 b hb1 heq
      subst hab
      have htails := hperm.cons_inv
      have := ih l2 htails (List.pairwise_cons.mp hs1).2
        (List.pairwise_cons.mp hs2).2 (List.pairwise_cons.mp hdist).2
      rw [this]

/-- C7 (amended): the threaded ray-cast path is taken only when the worker
pool has at least one thread, the query requests object-level (triangle)
precision and the candidate count is at least twice the per-work-item
granularity - otherwise Raycast returns the inline result for every
schedule; and for identical inputs the merged, globally sorted threaded
result is a permutation of the inline result under every schedule of the
work items, and is byte-identical to it whenever the hit distances are
pairwise distinct - but with tied distances an unlucky schedule can order
the tied hits differently, so unconditional identity, as originally
claimed, fails (see the counterexample). -/
theorem C7_threaded_vs_inline (numThreads : ℕ) (σ σ2 : ℕ → ℕ)
    (q : RayOctreeQuery) (store : ℕ → RayDrawable) (t : Otree)
    (hσ : ∀ m, m < (raycastChunks
        (Octant.GetDrawablesOnlyInternal q store t)).length →
        σ m ≤ numThreads) :
    ((numThreads = 0 ∨ q.level_ < RAY_TRIANGLE ∨
        (Octant.GetDrawablesOnlyInternal q store t).length <
          RAYCASTS_PER_WORK_ITEM * 2) →
      Octree.Raycast numThreads σ q store t =
        Octree.Raycast 0 σ2 q store t) ∧
    (Octree.Raycast numThreads σ q store t).Perm
      (Octree.Raycast 0 σ2 q store t) ∧
    ((Octant.GetDrawablesInternalRay q store t).Pairwise
        (fun a b => a.distance_ ≠ b.distance_) →
      Octree.Raycast numThreads σ q store t =
        Octree.Raycast 0 σ2 q store t) := by
  have hinline : Octree.Raycast 0 σ2 q store t =
      sortResults (Octant.GetDrawablesInternalRay q store t) := by
    simp [Octree.Raycast]
  by_cases hc1 : numThreads = 0 ∨ q.level_ < RAY_TRIANGLE
  · have heq : Octree.Raycast numThreads σ q store t =
        Octree.Raycast 0 σ2 q store t := by
      rw [hinline]
      simp [Octree.Raycast, hc1]
    exact ⟨fun _ => heq, heq ▸ List.Perm.refl _, fun _ => heq⟩
  · by_cases hc2 : RAYCASTS_PER_WORK_ITEM * 2 ≤
        (Octant.GetDrawablesOnlyInternal q store t).length
    · have hthr : Octree.Raycast numThreads σ q store t =
          sortResults (raycastThreaded numThreads σ store
            (Octant.GetDrawablesOnlyInternal q store t)) := by
        simp [Octree.Raycast, hc1, hc2]
      have hp1 : (raycastThreaded numThreads σ store
          (Octant.GetDrawablesOnlyInternal q store t)).Perm
          (Octant.GetDrawablesInternalRay q store t) := by
        rw [getDrawablesInternalRay_eq_flatMap]
        exact raycastThreaded_perm numThreads σ store _ hσ
      have hperm : (Octree.Raycast numThreads σ q store t).Perm
          (Octree.Raycast 0 σ2 q store t) := by
        rw [hthr, hinline]
        exact ((sortByKey_perm _ _).trans
          (hp1.trans (sortByKey_perm _ _).symm))
      refine ⟨?_, hperm, ?_⟩
      · intro habs
        rcases habs with h | h | h
        · exact absurd (Or.inl h) hc1
        · exact absurd (Or.inr h) hc1
        · omega
      · intro hdist
        rw [hthr, hinline]
        refine sorted_perm_distinct_eq (fun r => r.distance_) _ _ ?_
          (sortByKey_pairwise _ _) (sortByKey_pairwise _ _) ?_
        · exact (sortByKey_perm _ _).trans
            (hp1.trans (sortByKey_perm _ _).symm)
        · have hp : (sortResults (raycastThreaded numThreads σ store
              (Octant.GetDrawablesOnlyInternal q store t))).Perm
              (Octant.GetDrawablesInternalRay q store t) :=
            (sortByKey_perm _ _).trans hp1
          exact (hp.pairwise_iff fun hxy => Ne.symm hxy).mpr hdist
    · have heq : Octree.Raycast numThreads σ q store t =
          Octree.Raycast 0 σ2 q store t := by
        rw [hinline]
        simp only [Octree.Raycast, if_neg hc1, if_neg hc2]
        rw [getDrawablesInternalRay_eq_flatMap]
      exact ⟨fun _ => heq, heq ▸ List.Perm.refl _, fun _ => heq⟩

/-- C7 counterexample: eight candidates at triangle precision with one
worker thread; drawables 0 (in chunk 0) and 4 (in chunk 1) hit at the same
distance 5; the schedule that runs chunk 0 on the worker (buffer 1) and
chunk 1 on the main thread (buffer 0) merges the hit of drawable 4 first,
and the stable distance sort keeps that order, while inline execution
yields drawable 0 first - the sorted hit lists are not identical, refuting
unconditional determinism. -/
theorem C7_counterexample :
    ¬ (Octree.Raycast 1 (fun k => if k = 0 then 1 else 0)
        { maxDistance_ := 100, drawableFlags_ := 1, viewMask_ := 1,
          level_ := 3, rayBoxDist := fun _ => 0 }
        (fun i =>
          { drawableFlags_ := 1, viewMask_ := 1,
            worldBoundingBox_ :=
              { min_ := { x_ := 0, y_ := 0, z_ := 0 },
                max_ := { x_ := 1, y_ := 1, z_ := 1 } },
            hits :=
              if i = 0 then [{ distance_ := 5, drawable_ := 0 }]
              else if i = 4 then [{ distance_ := 5, drawable_ := 4 }]
              else [] })
        (Otree.node
          (Octant.Initialize
            { min_ := { x_ := 0, y_ := 0, z_ := 0 },
              max_ := { x_ := 10, y_ := 10, z_ := 10 } })
          0 8 [0, 1, 2, 3, 4, 5, 6, 7]
          .null .null .null .null .null .null .null .null) =
      Octree.Raycast 0 (fun k => if k = 0 then 1 else 0)
        { maxDistance_ := 100, drawableFlags_ := 1, viewMask_ := 1,
          level_ := 3, rayBoxDist := fun _ => 0 }
        (fun i =>
          { drawableFlags_ := 1, viewMask_ := 1,
            worldBoundingBox_ :=
              { min_ := { x_ := 0, y_ := 0, z_ := 0 },
                max_ := { x_ := 1, y_ := 1, z_ := 1 } },
            hits :=
              if i = 0 then [{ distance_ := 5, drawable_ := 0 }]
              else if i = 4 then [{ distance_ := 5, drawable_ := 4 }]
              else [] })
        (Otree.node
          (Octant.Initialize
            { min_ := { x_ := 0, y_ := 0, z_ := 0 },
              max_ := { x_ := 10, y_ := 10, z_ := 10 } })
          0 8 [0, 1, 2, 3, 4, 5, 6, 7]
          .null .null .null .null .null .null .null .null)) := by
  norm_num [Octree.Raycast, sortResults, sortByKey, sortedInsert,
    raycastThreaded, raycastDistribute, raycastChunks, raycastChunksGo,
    processChunk, Octant.GetDrawablesInternalRay,
    Octant.GetDrawablesOnlyInternal, rayFilter, RAY_TRIANGLE,
    RAYCASTS_PER_WORK_ITEM, List.getD]

/-- C7 witness: the amended theorem applied to the same concrete scene and
schedule; the threaded and inline results are permutations of each other. -/
theorem C7_threaded_vs_inline_witness :
    (Octree.Raycast 1 (fun k => if k = 0 then 1 else 0)
        { maxDistance_ := 100, drawableFlags_ := 1, viewMask_ := 1,
          level_ := 3, rayBoxDist := fun _ => 0 }
        (fun i =>
          { drawableFlags_ := 1, viewMask_ := 1,
            worldBoundingBox_ :=
              { min_ := { x_ := 0, y_ := 0, z_ := 0 },
                max_ := { x_ := 1, y_ := 1, z_ := 1 } },
            hits :=
              if i = 0 then [{ distance_ := 5, drawable_ := 0 }]
              else if i = 4 then [{ distance_ := 5, drawable_ := 4 }]
              else [] })
        (Otree.node
          (Octant.Initialize
            { min_ := { x_ := 0, y_ := 0, z_ := 0 },
              max_ := { x_ := 10, y_ := 10, z_ := 10 } })
          0 8 [0, 1, 2, 3, 4, 5, 6, 7]
          .null .null .null .null .null .null .null .null)).Perm
      (Octree.Raycast 0 (fun k => if k = 0 then 1 else 0)
        { maxDistance_ := 100, drawableFlags_ := 1, viewMask_ := 1,
          level_ := 3, rayBoxDist := fun _ => 0 }
        (fun i =>
          { drawableFlags_ := 1, viewMask_ := 1,
            worldBoundingBox_ :=
              { min_ := { x_ := 0, y_ := 0, z_ := 0 },
                max_ := { x_ := 1, y_ := 1, z_ := 1 } },
            hits :=
              if i = 0 then [{ distance_ := 5, drawable_ := 0 }]
              else if i = 4 then [{ distance_ := 5, drawable_ := 4 }]
              else [] })
        (Otree.node
          (Octant.Initialize
            { min_ := { x_ := 0, y_ := 0, z_ := 0 },
              max_ := { x_ := 10, y_ := 10, z_ := 10 } })
          0 8 [0, 1, 2, 3, 4, 5, 6, 7]
          .null .null .null .null .null .null .null .null)) := by
  refine (C7_threaded_vs_inline 1 (fun k => if k = 0 then 1 else 0)
      (fun k => if k = 0 then 1 else 0) _ _ _ ?_).2.1
  intro m _
  by_cases hm0 : m = 0 <;> simp [hm0]

/-- Candidate list of RaycastSingle's stage 1 (source lines 577-584):
traversal candidates sorted ascending by ray-box distance to their world
bounding boxes. -/
def Octree.raycastSingleCands (q : RayOctreeQuery) (store : ℕ → RayDrawable)
    (t : Otree) : List ℕ :=
  sortByKey (fun i => q.rayBoxDist (store i).worldBoundingBox_)
    (Octant.GetDrawablesOnlyInternal q store t)

/-- The candidates RaycastSingle's stage-2 walk actually subjects to the
per-object test. -/
def Octree.raycastSingleProcessed (q : RayOctreeQuery)
    (store : ℕ → RayDrawable) (t : Otree) : List ℕ :=
  (raycastSingleWalk q store (Octree.raycastSingleCands q store t) none []).2

/-- RaycastSingle, re-expressed through the named candidate list. -/
theorem raycastSingle_eq (q : RayOctreeQuery) (store : ℕ → RayDrawable)
    (t : Otree) :
    Octree.RaycastSingle q store t =
      if 1 < (raycastSingleWalk q store
          (Octree.raycastSingleCands q store t) none []).1.length then
        (sortResults (raycastSingleWalk q store
          (Octree.raycastSingleCands q store t) none []).1).take 1
      else
        (raycastSingleWalk q store
          (Octree.raycastSingleCands q store t) none []).1 := rfl

/-- With no worker threads, Raycast is the plain traversal's hits sorted. -/
theorem raycast_zero_eq (σ : ℕ → ℕ) (q : RayOctreeQuery)
    (store : ℕ → RayDrawable) (t : Otree) :
    Octree.Raycast 0 σ q store t =
      sortResults ((Octant.GetDrawablesOnlyInternal q store t).flatMap
        fun i => (store i).hits) := by
  simp [Octree.Raycast, getDrawablesInternalRay_eq_flatMap]

/-- Candidates without hits do not move the closest-hit bound. -/
theorem walkBound_of_empty (store : ℕ → RayDrawable) (l : List ℕ)
    (c : Option ℚ) (h : ∀ i ∈ l, (store i).hits = []) :
    walkBound store l c = c := by
  induction l generalizing c with
  | nil => rfl
  | cons i rest ih =>
    have hi : (store i).hits = [] := h i (List.mem_cons_self i rest)
    simp only [walkBound, walkBoundStep, hi, List.isEmpty_nil, if_true]
    exact ih _ fun j hj => h j (List.mem_cons_of_mem i hj)

/-- The head of the distance-sorted results is a minimal-distance member. -/
theorem sortResults_head_min (l : List RayQueryResult) (a : RayQueryResult)
    (h : (sortResults l).head? = some a) :
    a ∈ l ∧ ∀ x ∈ l, a.distance_ ≤ x.distance_ := by
  have hperm := sortByKey_perm (fun r => r.distance_) l
  have hmin := sorted_head_min (fun r => r.distance_) (sortResults l) a
    (sortByKey_pairwise _ _) h
  have hmem : a ∈ sortResults l := List.mem_of_mem_head? (by simp [h])
  exact ⟨hperm.mem_iff.mp hmem, fun x hx => hmin x (hperm.mem_iff.mpr hx)⟩

set_option maxHeartbeats 1000000 in
/-- Specification of RaycastSingle's stage-2 walk: the output extends the
accumulator with exactly the hits of the processed candidates; the
processed candidates are a prefix of the input; each processed candidate
passed the early-exit test against the bound current at its turn; the
first unprocessed candidate, if any, failed it; and whenever the final
bound is finite, some output result is at most that bound (provided the
input bound already had that property over the accumulator). -/
theorem raycastSingleWalk_spec (q : RayOctreeQuery) (store : ℕ → RayDrawable)
    (rest : List ℕ) (closest : Option ℚ) (acc : List RayQueryResult) :
    (raycastSingleWalk q store rest closest acc).1 =
      acc ++ (raycastSingleWalk q store rest closest acc).2.flatMap
        (fun i => (store i).hits) ∧
    rest = (raycastSingleWalk q store rest closest acc).2 ++
      rest.drop (raycastSingleWalk q store rest closest acc).2.length ∧
    (∀ pre s post,
      (raycastSingleWalk q store rest closest acc).2 = pre ++ s :: post →
      q.rayBoxDist (store s).worldBoundingBox_ <
        minOpt (walkBound store pre closest) q.maxDistance_) ∧
    (∀ s,
      (rest.drop (raycastSingleWalk q store rest closest acc).2.length).head?
        = some s →
      minOpt (walkBound store (raycastSingleWalk q store rest closest acc).2
          closest) q.maxDistance_ ≤
        q.rayBoxDist (store s).worldBoundingBox_) ∧
    ((∀ c, closest = some c → ∃ x ∈ acc, x.distance_ ≤ c) →
      ∀ c, walkBound store (raycastSingleWalk q store rest closest acc).2
          closest = some c →
        ∃ x ∈ (raycastSingleWalk q store rest closest acc).1,
          x.distance_ ≤ c) := by
  induction rest generalizing closest acc with
  | nil =>
    refine ⟨by simp [raycastSingleWalk], by simp [raycastSingleWalk],
      ?_, ?_, ?_⟩
    · intro pre s post h
      simp [raycastSingleWalk] at h
    · intro s hs
      simp [raycastSingleWalk] at hs
    · intro hinv c hc
      simp only [raycastSingleWalk] at hc ⊢
      simp only [walkBound] at hc
      exact hinv c hc
  | cons i rest ih =>
    by_cases hcond : q.rayBoxDist (store i).worldBoundingBox_ <
        minOpt closest q.maxDistance_
    · have hw : raycastSingleWalk q store (i :: rest) closest acc =
          ((raycastSingleWalk q store rest (walkBoundStep store closest i)
              (acc ++ (store i).hits)).1,
            i :: (raycastSingleWalk q store rest
              (walkBoundStep store closest i) (acc ++ (store i).hits)).2) := by
        simp only [raycastSingleWalk, if_pos hcond]
      obtain ⟨ih1, ih2, ih3, ih4, ih5⟩ :=
        ih (walkBoundStep store closest i) (acc ++ (store i).hits)
      rw [hw]
      refine ⟨?_, ?_, ?_, ?_, ?_⟩
      · rw [List.flatMap_cons, ← List.append_assoc]
        exact ih1
      · simp only [List.length_cons, List.drop_succ_cons, List.cons_append]
        exact congrArg (List.cons i) ih2
      · intro pre s post h
        cases pre with
        | nil =>
          simp only [List.nil_append, List.cons.injEq] at h
          rw [← h.1]
          simpa [walkBound] using hcond
        | cons a pre2 =>
          simp only [List.cons_append, List.cons.injEq] at h
          obtain ⟨hia, h2⟩ := h
          subst hia
          simp only [walkBound]
          exact ih3 pre2 s post h2
      · intro s hs
        simp only [List.length_cons, List.drop_succ_cons] at hs
        simp only [walkBound]
        exact ih4 s hs
      · intro hinv c hc
        simp only [walkBound] at hc
        refine ih5 ?_ c hc
        intro c2 hc2
        by_cases he : (store i).hits.isEmpty
        · refine (hinv c2 ?_).imp fun x hx =>
            ⟨List.mem_append_left _ hx.1, hx.2⟩
          rw [← hc2]
          simp [walkBoundStep, he]
        · have hne : (store i).hits ≠ [] := fun hnil => he (by simp [hnil])
          have hlast : (store i).hits.getLast? =
              some ((store i).hits.getLast hne) :=
            List.getLast?_eq_getLast _ hne
          have hc2e : c2 = minOpt closest
              (((store i).hits.getLast hne).distance_) := by
            have h3 := hc2
            simp only [walkBoundStep, if_neg he, hlast, Option.getD_some]
              at h3
            injection h3 with h4
            exact h4.symm
          have hmem : (store i).hits.getLast hne ∈ acc ++ (store i).hits :=
            List.mem_append_right _ (List.getLast_mem hne)
          cases closest with
          | none =>
            refine ⟨(store i).hits.getLast hne, hmem, ?_⟩
            rw [hc2e]
            simp [minOpt]
          | some c0 =>
            rcases le_total c0 (((store i).hits.getLast hne).distance_)
              with hle | hle
            · obtain ⟨x, hx1, hx2⟩ := hinv c0 rfl
              refine ⟨x, List.mem_append_left _ hx1, ?_⟩
              rw [hc2e]
              simp only [minOpt]
              exact hx2.trans (le_min le_rfl hle)
            · refine ⟨(store i).hits.getLast hne, hmem, ?_⟩
              rw [hc2e]
              simp only [minOpt]
              exact le_min hle le_rfl
    · have hw : raycastSingleWalk q store (i :: rest) closest acc =
          (acc, []) := by
        simp only [raycastSingleWalk, if_neg hcond]
      rw [hw]
      refine ⟨by simp, by simp, ?_, ?_, ?_⟩
      · intro pre s post h
        simp at h
      · intro s hs
        simp only [List.length_nil, List.drop_zero, List.head?_cons,
          Option.some.injEq] at hs
        subst hs
        simpa [walkBound] using le_of_not_lt hcond
      · intro hinv c hc
        simp only [walkBound] at hc
        exact hinv c hc

set_option maxHeartbeats 1000000 in
/-- The head hit distance of RaycastSingle's stage-2 output (trimmed to one
entry) agrees with the head of the distance-sorted full hit list, for any
candidate pool whose hits respect the ray-box lower bound and the max
distance. -/
theorem raycastSingle_head_distance (q : RayOctreeQuery)
    (store : ℕ → RayDrawable) (cands0 : List ℕ)
    (H : ∀ i, ∀ r ∈ (store i).hits,
      q.rayBoxDist (store i).worldBoundingBox_ ≤ r.distance_ ∧
        r.distance_ < q.maxDistance_) :
    (if 1 < (raycastSingleWalk q store
        (sortByKey (fun i => q.rayBoxDist (store i).worldBoundingBox_)
          cands0) none []).1.length then
      (sortResults (raycastSingleWalk q store
        (sortByKey (fun i => q.rayBoxDist (store i).worldBoundingBox_)
          cands0) none []).1).take 1
    else
      (raycastSingleWalk q store
        (sortByKey (fun i => q.rayBoxDist (store i).worldBoundingBox_)
          cands0) none []).1).head?.map RayQueryResult.distance_ =
    (sortResults (cands0.flatMap fun i => (store i).hits)).head?.map
      RayQueryResult.distance_ := by
  set key : ℕ → ℚ := fun i => q.rayBoxDist (store i).worldBoundingBox_
    with hkeydef
  set cands := sortByKey key cands0 with hcandsdef
  obtain ⟨w1, w2, w3, w4, w5⟩ := raycastSingleWalk_spec q store cands none []
  set p := (raycastSingleWalk q store cands none []).2 with hpdef
  set R := (raycastSingleWalk q store cands none []).1 with hRdef
  set allH := cands0.flatMap (fun i => (store i).hits) with hallHdef
  have hR : R = p.flatMap fun i => (store i).hits := by simpa using w1
  have hmemc : ∀ i, i ∈ cands ↔ i ∈ cands0 :=
    fun i => (sortByKey_perm key cands0).mem_iff
  have hsorted : cands.Pairwise fun a b => key a ≤ key b :=
    sortByKey_pairwise key cands0
  have hsplit := List.pairwise_append.mp (w2 ▸ hsorted)
  by_cases hA : R = []
  · have hfm : (p.flatMap fun i => (store i).hits) = [] := by
      rw [← hR]
      exact hA
    have hpempty : ∀ i ∈ p, (store i).hits = [] :=
      List.flatMap_eq_nil_iff.mp hfm
    have hallempty : ∀ i ∈ cands0, (store i).hits = [] := by
      intro i hi
      have hic : i ∈ cands := (hmemc i).mpr hi
      rw [w2] at hic
      rcases List.mem_append.mp hic with hip | his
      · exact hpempty i hip
      · rcases List.exists_cons_of_ne_nil (List.ne_nil_of_mem his)
          with ⟨s, tl, hstl⟩
        have hshead : (cands.drop p.length).head? = some s := by
          rw [hstl]
          rfl
        have hbound := w4 s hshead
        rw [walkBound_of_empty store p none hpempty] at hbound
        have hmax : q.maxDistance_ ≤ key s := by
          simpa [minOpt] using hbound
        have hsi : key s ≤ key i :=
          sorted_head_min key (cands.drop p.length) s hsplit.2.1 hshead i his
        by_contra hne
        rcases List.exists_mem_of_ne_nil _ hne with ⟨r, hr⟩
        have hHr := H i r hr
        have : q.maxDistance_ ≤ r.distance_ := le_trans (hmax.trans hsi) hHr.1
        linarith [hHr.2]
    have hallH : allH = [] := List.flatMap_eq_nil_iff.mpr hallempty
    have hcond : ¬ 1 < R.length := by
      rw [hA]
      simp
    rw [if_neg hcond, hA, hallH]
    simp [sortResults, sortByKey]
  · have hLHS : ∃ r, (if 1 < R.length then (sortResults R).take 1
        else R).head? = some r ∧ r ∈ R ∧
        ∀ x ∈ R, r.distance_ ≤ x.distance_ := by
      by_cases hlen : 1 < R.length
      · rw [if_pos hlen]
        have hperm2 : (sortResults R).Perm R :=
          sortByKey_perm (fun r : RayQueryResult => r.distance_) R
        have hsne : sortResults R ≠ [] := by
          intro hnil
          rw [hnil] at hperm2
          exact hA hperm2.symm.eq_nil
        rcases List.exists_cons_of_ne_nil hsne with ⟨a, tl, hsr⟩
        have hhead : (sortResults R).head? = some a := by
          rw [hsr]
          rfl
        obtain ⟨hamem, hamin⟩ := sortResults_head_min R a hhead
        refine ⟨a, ?_, hamem, hamin⟩
        rw [hsr]
        rfl
      · rw [if_neg hlen]
        have hlen1 : R.length = 1 := by
          have := List.length_pos.mpr hA
          omega
        rcases List.length_eq_one.mp hlen1 with ⟨r, hr⟩
        refine ⟨r, by rw [hr]; rfl,
          by rw [hr]; exact List.mem_cons_self _ _, ?_⟩
        intro x hx
        rw [hr] at hx
        rw [List.mem_singleton.mp hx]
    obtain ⟨r, hLhead, hrmem, hrmin⟩ := hLHS
    have hsubR : ∀ x ∈ R, x ∈ allH := by
      intro x hx
      rw [hR] at hx
      rcases List.mem_flatMap.mp hx with ⟨i, hip, hxi⟩
      refine List.mem_flatMap.mpr ⟨i, ?_, hxi⟩
      have hic : i ∈ cands := by
        rw [w2]
        exact List.mem_append_left _ hip
      exact (hmemc i).mp hic
    have hallne : allH ≠ [] := by
      rcases List.exists_mem_of_ne_nil R hA with ⟨x, hx⟩
      exact List.ne_nil_of_mem (hsubR x hx)
    have hperm3 : (sortResults allH).Perm allH :=
      sortByKey_perm (fun r : RayQueryResult => r.distance_) allH
    have hsne2 : sortResults allH ≠ [] := by
      intro hnil
      rw [hnil] at hperm3
      exact hallne hperm3.symm.eq_nil
    rcases List.exists_cons_of_ne_nil hsne2 with ⟨g, tlg, hsg⟩
    have hghead : (sortResults allH).head? = some g := by
      rw [hsg]
      rfl
    obtain ⟨hgmem, hgmin⟩ := sortResults_head_min allH g hghead
    rw [hLhead, hghead]
    have h1 : g.distance_ ≤ r.distance_ := hgmin r (hsubR r hrmem)
    have h2 : r.distance_ ≤ g.distance_ := by
      rcases List.mem_flatMap.mp hgmem with ⟨j, hj0, hgj⟩
      have hjc : j ∈ cands := (hmemc j).mpr hj0
      rw [w2] at hjc
      rcases List.mem_append.mp hjc with hjp | hjs
      · have hgR : g ∈ R := by
          rw [hR]
          exact List.mem_flatMap.mpr ⟨j, hjp, hgj⟩
        exact hrmin g hgR
      · rcases List.exists_cons_of_ne_nil (List.ne_nil_of_mem hjs)
          with ⟨s, tls, hstl⟩
        have hshead : (cands.drop p.length).head? = some s := by
          rw [hstl]
          rfl
        have hbound := w4 s hshead
        have hsj : key s ≤ key j :=
          sorted_head_min key (cands.drop p.length) s hsplit.2.1 hshead j hjs
        have hHg := H j g hgj
        have hjg : key j ≤ g.distance_ := hHg.1
        have hgmax : g.distance_ < q.maxDistance_ := hHg.2
        cases hwb : walkBound store p none with
        | none =>
          rw [hwb] at hbound
          simp only [minOpt] at hbound
          linarith
        | some c =>
          rw [hwb] at hbound
          simp only [minOpt] at hbound
          have hcle : c ≤ g.distance_ := by
            rcases min_le_iff.mp (hbound.trans (hsj.trans hjg)) with h | h
            · exact h
            · linarith
          obtain ⟨x, hxR, hxc⟩ :=
            w5 (fun c2 hc2 => Option.noConfusion hc2) c hwb
          exact (hrmin x hxR).trans (hxc.trans hcle)
    have : r.distance_ = g.distance_ := le_antisymm h2 h1
    simp [this]

set_option maxHeartbeats 1000000 in
/-- C6 (amended): assuming each drawable's reported hits lie at or beyond
its ray-box distance and strictly inside the query's max distance,
RaycastSingle returns at most one result; the hit distance of its head
agrees with the head of the distance-sorted Raycast output for the same
scene (in particular one is empty exactly when the other is), though with
tied hit distances the returned element may differ from Raycast's first;
and its stage-2 walk processes a prefix of the box-distance-sorted
candidates, subjecting a candidate to the per-object test exactly while its
box distance is strictly below both the current closest-hit bound and the
max distance, stopping at the first candidate that fails. -/
theorem C6_raycastSingle (q : RayOctreeQuery) (σ : ℕ → ℕ)
    (store : ℕ → RayDrawable) (t : Otree)
    (H : ∀ i, ∀ r ∈ (store i).hits,
      q.rayBoxDist (store i).worldBoundingBox_ ≤ r.distance_ ∧
        r.distance_ < q.maxDistance_) :
    (Octree.RaycastSingle q store t).length ≤ 1 ∧
    (Octree.RaycastSingle q store t).head?.map RayQueryResult.distance_ =
      (Octree.Raycast 0 σ q store t).head?.map RayQueryResult.distance_ ∧
    Octree.raycastSingleCands q store t =
      Octree.raycastSingleProcessed q store t ++
        (Octree.raycastSingleCands q store t).drop
          (Octree.raycastSingleProcessed q store t).length ∧
    (∀ pre s post,
      Octree.raycastSingleProcessed q store t = pre ++ s :: post →
      q.rayBoxDist (store s).worldBoundingBox_ <
        minOpt (walkBound store pre none) q.maxDistance_) ∧
    (∀ s, ((Octree.raycastSingleCands q store t).drop
        (Octree.raycastSingleProcessed q store t).length).head? = some s →
      minOpt (walkBound store (Octree.raycastSingleProcessed q store t) none)
          q.maxDistance_ ≤ q.rayBoxDist (store s).worldBoundingBox_) := by
  obtain ⟨w1, w2, w3, w4, w5⟩ := raycastSingleWalk_spec q store
    (Octree.raycastSingleCands q store t) none []
  refine ⟨?_, ?_, w2, w3, w4⟩
  · rw [raycastSingle_eq]
    split
    · exact List.length_take_le 1 _
    · omega
  · rw [raycastSingle_eq, raycast_zero_eq]
    exact raycastSingle_head_distance q store
      (Octant.GetDrawablesOnlyInternal q store t) H

set_option maxHeartbeats 1000000 in
/-- C6 counterexample: two candidates hitting at the same distance 5;
drawable 1 has the nearer bounding box, so RaycastSingle processes it
first, its hit becomes the closest-hit bound, and drawable 0 is never
tested - RaycastSingle returns drawable 1's hit.  Raycast on the same scene
appends drawable 0's hit first and the stable distance sort keeps it in
front, so RaycastSingle's nonempty result is NOT the first element Raycast
returns. -/
theorem C6_counterexample :
    Octree.RaycastSingle
        { maxDistance_ := 100, drawableFlags_ := 1, viewMask_ := 1,
          level_ := 3,
          rayBoxDist := fun b => if b.max_.x_ = 1 then 5 else 3 }
        (fun i =>
          { drawableFlags_ := 1, viewMask_ := 1,
            worldBoundingBox_ :=
              if i = 0 then
                { min_ := { x_ := 0, y_ := 0, z_ := 0 },
                  max_ := { x_ := 1, y_ := 1, z_ := 1 } }
              else
                { min_ := { x_ := 0, y_ := 0, z_ := 0 },
                  max_ := { x_ := 2, y_ := 2, z_ := 2 } },
            hits :=
              if i = 0 then [{ distance_ := 5, drawable_ := 0 }]
              else if i = 1 then [{ distance_ := 5, drawable_ := 1 }]
              else [] })
        (Otree.node
          { worldBoundingBox_ :=
              { min_ := { x_ := 0, y_ := 0, z_ := 0 },
                max_ := { x_ := 4, y_ := 4, z_ := 4 } },
            center_ := { x_ := 2, y_ := 2, z_ := 2 },
            halfSize_ := { x_ := 2, y_ := 2, z_ := 2 },
            cullingBox_ :=
              { min_ := { x_ := -2, y_ := -2, z_ := -2 },
                max_ := { x_ := 6, y_ := 6, z_ := 6 } } }
          0 2 [0, 1] .null .null .null .null .null .null .null .null) ≠ [] ∧
    Octree.RaycastSingle
        { maxDistance_ := 100, drawableFlags_ := 1, viewMask_ := 1,
          level_ := 3,
          rayBoxDist := fun b => if b.max_.x_ = 1 then 5 else 3 }
        (fun i =>
          { drawableFlags_ := 1, viewMask_ := 1,
            worldBoundingBox_ :=
              if i = 0 then
                { min_ := { x_ := 0, y_ := 0, z_ := 0 },
                  max_ := { x_ := 1, y_ := 1, z_ := 1 } }
              else
                { min_ := { x_ := 0, y_ := 0, z_ := 0 },
                  max_ := { x_ := 2, y_ := 2, z_ := 2 } },
            hits :=
              if i = 0 then [{ distance_ := 5, drawable_ := 0 }]
              else if i = 1 then [{ distance_ := 5, drawable_ := 1 }]
              else [] })
        (Otree.node
          { worldBoundingBox_ :=
              { min_ := { x_ := 0, y_ := 0, z_ := 0 },
                max_ := { x_ := 4, y_ := 4, z_ := 4 } },
            center_ := { x_ := 2, y_ := 2, z_ := 2 },
            halfSize_ := { x_ := 2, y_ := 2, z_ := 2 },
            cullingBox_ :=
              { min_ := { x_ := -2, y_ := -2, z_ := -2 },
                max_ := { x_ := 6, y_ := 6, z_ := 6 } } }
          0 2 [0, 1] .null .null .null .null .null .null .null .null) ≠
      (Octree.Raycast 0 (fun _ => 0)
        { maxDistance_ := 100, drawableFlags_ := 1, viewMask_ := 1,
          level_ := 3,
          rayBoxDist := fun b => if b.max_.x_ = 1 then 5 else 3 }
        (fun i =>
          { drawableFlags_ := 1, viewMask_ := 1,
            worldBoundingBox_ :=
              if i = 0 then
                { min_ := { x_ := 0, y_ := 0, z_ := 0 },
                  max_ := { x_ := 1, y_ := 1, z_ := 1 } }
              else
                { min_ := { x_ := 0, y_ := 0, z_ := 0 },
                  max_ := { x_ := 2, y_ := 2, z_ := 2 } },
            hits :=
              if i = 0 then [{ distance_ := 5, drawable_ := 0 }]
              else if i = 1 then [{ distance_ := 5, drawable_ := 1 }]
              else [] })
        (Otree.node
          { worldBoundingBox_ :=
              { min_ := { x_ := 0, y_ := 0, z_ := 0 },
                max_ := { x_ := 4, y_ := 4, z_ := 4 } },
            center_ := { x_ := 2, y_ := 2, z_ := 2 },
            halfSize_ := { x_ := 2, y_ := 2, z_ := 2 },
            cullingBox_ :=
              { min_ := { x_ := -2, y_ := -2, z_ := -2 },
                max_ := { x_ := 6, y_ := 6, z_ := 6 } } }
          0 2 [0, 1] .null .null .null .null .null .null .null
          .null)).take 1 := by
  constructor <;>
    norm_num [Octree.RaycastSingle, Octree.Raycast, sortByKey, sortedInsert,
      sortResults, Octant.GetDrawablesOnlyInternal,
      Octant.GetDrawablesInternalRay, rayFilter, raycastSingleWalk,
      walkBoundStep, minOpt, RAY_TRIANGLE]

/-- C6 witness: the amended theorem applied to the counterexample scene,
whose hits respect the ray-box lower bound and the max distance; the result
list has at most one entry. -/
theorem C6_raycastSingle_witness :
    (Octree.RaycastSingle
        { maxDistance_ := 100, drawableFlags_ := 1, viewMask_ := 1,
          level_ := 3,
          rayBoxDist := fun b => if b.max_.x_ = 1 then 5 else 3 }
        (fun i =>
          { drawableFlags_ := 1, viewMask_ := 1,
            worldBoundingBox_ :=
              if i = 0 then
                { min_ := { x_ := 0, y_ := 0, z_ := 0 },
                  max_ := { x_ := 1, y_ := 1, z_ := 1 } }
              else
                { min_ := { x_ := 0, y_ := 0, z_ := 0 },
                  max_ := { x_ := 2, y_ := 2, z_ := 2 } },
            hits :=
              if i = 0 then [{ distance_ := 5, drawable_ := 0 }]
              else if i = 1 then [{ distance_ := 5, drawable_ := 1 }]
              else [] })
        (Otree.node
          { worldBoundingBox_ :=
              { min_ := { x_ := 0, y_ := 0, z_ := 0 },
                max_ := { x_ := 4, y_ := 4, z_ := 4 } },
            center_ := { x_ := 2, y_ := 2, z_ := 2 },
            halfSize_ := { x_ := 2, y_ := 2, z_ := 2 },
            cullingBox_ :=
              { min_ := { x_ := -2, y_ := -2, z_ := -2 },
                max_ := { x_ := 6, y_ := 6, z_ := 6 } } }
          0 2 [0, 1] .null .null .null .null .null .null .null
          .null)).length ≤ 1 := by
  refine (C6_raycastSingle _ (fun _ => 0) _ _ ?_).1
  intro i r hr
  by_cases h0 : i = 0
  · subst h0
    simp at hr
    subst hr
    norm_num
  · by_cases h1 : i = 1
    · subst h1
      simp at hr
      subst hr
      norm_num
    · simp [h0, h1] at hr

end Urho3D
